import Mathlib

/-!
Verification of the tree-sitter-autohotkey external scanner (src/src/scanner.c)
against its natural-language specification.

The scanner is embedded shallowly: the tree-sitter lexer cursor becomes the
`Lexer` structure (remaining input, advance count, last `mark_end` position,
and the list of characters advanced with the whitespace flag off).  At end of
input the lookahead code point is NUL and `advance` is a no-op, matching the
tree-sitter runtime contract.  Fixed-size C character buffers become lists of
`Char` of the buffer's length; buffers the C code leaves uninitialized are
passed in as parameters (`g`), so theorems quantify over the indeterminate
prior contents.  Loops that always consume input are structural recursions on
the remaining-input list (kept in lockstep with the cursor); the two loops
that can fail to make progress at end of input (`skip_eol` and the
continuation-option scan) take explicit fuel and return `none` when it runs
out, so non-termination of the C loop is expressible as `= none` for every
fuel.
-/

/-- The NUL code point: lookahead value at end of input. -/
def nul : Char := Char.ofNat 0

/-- Head of a character list, NUL when empty (models reading the lookahead). -/
def cHead : List Char → Char
  | [] => nul
  | c :: _ => c

/-- `is_alpha` macro from scanner.c. -/
def is_alpha (c : Char) : Bool :=
  ('a' ≤ c && c ≤ 'z') || ('A' ≤ c && c ≤ 'Z')

/-- `is_alnum` macro from scanner.c. -/
def is_alnum (c : Char) : Bool :=
  is_alpha c || ('0' ≤ c && c ≤ '9')

/-- `is_identifier_char` macro from scanner.c. -/
def is_identifier_char (c : Char) : Bool :=
  is_alnum c || c = '_'

/-- `is_eol` macro from scanner.c: carriage return, newline, or NUL. -/
def is_eol (c : Char) : Bool :=
  c = '\r' || c = '\n' || c = nul

/-- `is_whitespace` macro from scanner.c. -/
def is_whitespace (c : Char) : Bool :=
  c = ' ' || c = '\t' || c = '\n' || c = '\r'

/-- Horizontal whitespace as used by `skip_horizontal_ws`. -/
def isHws (c : Char) : Bool :=
  c = ' ' || c = '\t'

/-- ASCII case folding, the model of C `tolower` on the scanner's input. -/
def lowc (c : Char) : Char :=
  if 'A' ≤ c && c ≤ 'Z' then Char.ofNat (c.toNat + 32) else c

/-- `is_operator_start` macro from scanner.c ( `+` and `-` deliberately excluded). -/
def is_operator_start (c : Char) : Bool :=
  c = '?' || c = '*' || c = '/' || c = '<' || c = '>' ||
  c = '=' || c = '^' || c = '|' || c = '&' || c = '!' ||
  c = '~' || c = ':' || c = '.' || c = ','

/-- The double-quote character. -/
def dquote : Char := Char.ofNat 34

/-- The single-quote character. -/
def squote : Char := Char.ofNat 39

/-- The backtick character. -/
def btick : Char := Char.ofNat 96

/-- `is_expression_start` macro from scanner.c. -/
def is_expression_start (c : Char) : Bool :=
  is_identifier_char c ||
  c = '_' || c = dquote || c = squote || c = '(' ||
  c = '+' || c = '-' ||
  c = '%'

/-- `starts_operator_keyword` macro from scanner.c. -/
def starts_operator_keyword (c : Char) : Bool :=
  c = 'a' || c = 'A' || c = 'n' || c = 'N' ||
  c = 'i' || c = 'I' || c = 'o' || c = 'O' ||
  c = 'c' || c = 'C'

/-- `strcaseeq` from scanner.c: case-insensitive C-string comparison.
Reading past the end of a list yields NUL (the second argument is always a
keyword literal, implicitly NUL-terminated). -/
def strcaseeq : List Char → List Char → Bool
  | [], [] => true
  | [], y :: _ => decide (nul = y)
  | x :: _, [] => decide (x = nul)
  | x :: xs, y :: ys =>
    if x = nul ∨ y = nul then decide (x = y)
    else if lowc x = lowc y then strcaseeq xs ys
    else false

/-- Keyword literal "and". -/
def kwAnd : List Char := "and".toList
/-- Keyword literal "not". -/
def kwNot : List Char := "not".toList
/-- Keyword literal "is". -/
def kwIs : List Char := "is".toList
/-- Keyword literal "or". -/
def kwOr : List Char := "or".toList
/-- Keyword literal "contains". -/
def kwContains : List Char := "contains".toList
/-- Keyword literal "static". -/
def kwStatic : List Char := "static".toList
/-- Keyword literal "throw". -/
def kwThrow : List Char := "throw".toList
/-- Keyword literal "join". -/
def kwJoin : List Char := "join".toList

/-- `is_operator_keyword` macro from scanner.c. -/
def is_operator_keyword (ident : List Char) : Bool :=
  strcaseeq ident kwAnd ||
  strcaseeq ident kwNot ||
  strcaseeq ident kwIs ||
  strcaseeq ident kwOr ||
  strcaseeq ident kwContains

/-- `is_flow_keyword` macro from scanner.c. -/
def is_flow_keyword (ident : List Char) : Bool :=
  strcaseeq ident "if".toList ||
  strcaseeq ident "else".toList ||
  strcaseeq ident "while".toList ||
  strcaseeq ident "for".toList ||
  strcaseeq ident "loop".toList ||
  strcaseeq ident kwThrow ||
  strcaseeq ident "try".toList ||
  strcaseeq ident "catch".toList ||
  strcaseeq ident "finally".toList ||
  strcaseeq ident "break".toList ||
  strcaseeq ident "continue".toList ||
  strcaseeq ident "as".toList ||
  strcaseeq ident "in".toList ||
  strcaseeq ident "switch".toList ||
  strcaseeq ident "case".toList ||
  strcaseeq ident "default".toList ||
  strcaseeq ident "goto".toList ||
  strcaseeq ident "return".toList

/-- `is_keyword` macro from scanner.c. -/
def is_keyword (ident : List Char) : Bool :=
  is_operator_keyword ident || is_flow_keyword ident

/-- The tree-sitter lexer cursor.  `rem` is the remaining input, `pos` counts
`advance` calls, `marked` is the position of the last `mark_end`, and `sig`
lists the characters advanced with the whitespace flag off (i.e. consumed as
token content rather than skipped). -/
structure Lexer where
  rem : List Char
  pos : Nat
  marked : Nat
  sig : List Char
deriving Repr, DecidableEq

/-- `lexer->lookahead`: NUL at end of input. -/
def Lexer.lookahead (l : Lexer) : Char := cHead l.rem

/-- `lexer->eof(lexer)`. -/
def Lexer.eof (l : Lexer) : Bool := l.rem.isEmpty

/-- `lexer->advance(lexer, skip)`: a no-op at end of input. -/
def Lexer.advance (l : Lexer) (skip : Bool) : Lexer :=
  match l.rem with
  | [] => l
  | c :: cs =>
    { rem := cs, pos := l.pos + 1, marked := l.marked,
      sig := if skip then l.sig else l.sig ++ [c] }

/-- `lexer->mark_end(lexer)`. -/
def Lexer.markEnd (l : Lexer) : Lexer := { l with marked := l.pos }

/-- A lexer at the start of a given input string. -/
def initLex (s : String) : Lexer := ⟨s.toList, 0, 0, []⟩

/-- Loop body of the `skip_whitespace` macro, structural on the remaining
input (kept in lockstep with the cursor). -/
def skipWhitespaceAux : List Char → Lexer → Lexer
  | [], l => l
  | c :: cs, l =>
    if is_whitespace c then skipWhitespaceAux cs (l.advance true) else l

/-- `skip_whitespace` macro from scanner.c: skips all whitespace including
newlines, advancing with the whitespace flag on. -/
def skip_whitespace (l : Lexer) : Lexer := skipWhitespaceAux l.rem l

/-- Loop body of `skip_to_whitespace`, structural on the remaining input. -/
def skipToWhitespaceAux : List Char → Lexer → Lexer
  | [], l => l
  | c :: cs, l =>
    if !is_whitespace c then skipToWhitespaceAux cs (l.advance false) else l

/-- `skip_to_whitespace` macro from scanner.c: skip until whitespace or end
of input. -/
def skip_to_whitespace (l : Lexer) : Lexer := skipToWhitespaceAux l.rem l

/-- `skip_eol` macro from scanner.c, with fuel: the C loop keeps running
while the lookahead is `\r`, `\n` or NUL, and at end of input the lookahead
stays NUL, so the loop can fail to terminate; `none` means the given number
of iterations was not enough to exit. -/
def skipEol : Nat → Lexer → Option Lexer
  | 0, _ => none
  | fuel + 1, l =>
    if is_eol l.lookahead then skipEol fuel (l.advance true) else some l

/-- Loop body of `skip_horizontal_ws`, structural on the remaining input;
returns the `skipped` flag and the cursor. -/
def skipHorizontalWsAux : List Char → Lexer → Bool × Lexer
  | [], l => (false, l)
  | c :: cs, l =>
    if c = ' ' || c = '\t' then
      (true, (skipHorizontalWsAux cs (l.advance false)).2)
    else (false, l)

/-- `skip_horizontal_ws` from scanner.c: skips spaces and tabs (advancing
with the whitespace flag off) and reports whether anything was skipped. -/
def skip_horizontal_ws (l : Lexer) : Bool × Lexer := skipHorizontalWsAux l.rem l

/-- Buffer contents produced by `skip_identifier`'s capture writes:
characters are stored while the write index stays below `bufSize - 1`, and a
NUL terminator is stored afterwards only if the total identifier length is
below `bufSize`.  `buf` is the buffer's (possibly indeterminate) prior
contents. -/
def captureGen (bufSize : Nat) : List Char → Nat → List Char → List Char
  | buf, len, [] => if len < bufSize then buf.set len nul else buf
  | buf, len, c :: cs =>
    captureGen bufSize (if len < bufSize - 1 then buf.set len c else buf) (len + 1) cs

/-- Loop body of `skip_identifier`, structural on the remaining input:
consumes a maximal run of identifier characters, writing into the buffer as
`captureGen` describes, and counts the total length. -/
def skipIdentifierAux (bufSize : Nat) :
    List Char → List Char → Nat → Lexer → Nat × List Char × Lexer
  | [], buf, len, l =>
    (len, if len < bufSize then buf.set len nul else buf, l)
  | c :: cs, buf, len, l =>
    if is_identifier_char c then
      skipIdentifierAux bufSize cs (if len < bufSize - 1 then buf.set len c else buf)
        (len + 1) (l.advance false)
    else
      (len, if len < bufSize then buf.set len nul else buf, l)

/-- `skip_identifier` from scanner.c.  Passing `buf = []` and `bufSize = 0`
models the `NULL` buffer call. -/
def skip_identifier (buf : List Char) (bufSize : Nat) (l : Lexer) :
    Nat × List Char × Lexer :=
  skipIdentifierAux bufSize l.rem buf 0 l

/-- `is_function_declaration`, lines 144-173: skip leading whitespace,
require an identifier, capture it into the 16-byte buffer whose prior
contents are `g`, then apply the `static` rule or the keyword guard.
Returns the acceptance verdict of this phase and the cursor handed to the
parenthesis/body phase. -/
def fd_ident_phase (g : List Char) (l : Lexer) : Bool × Lexer :=
  let l := skip_whitespace l
  if !is_identifier_char l.lookahead then (false, l)
  else
    let r := skip_identifier g 16 l
    let ident := r.2.1
    let l := r.2.2
    if strcaseeq ident kwStatic then
      let s := skip_horizontal_ws l
      let l := s.2
      if !s.1 then (false, l)
      else if !is_identifier_char l.lookahead then (false, l)
      else
        let r2 := skip_identifier [] 0 l
        if r2.1 = 0 then (false, r2.2.2) else (true, r2.2.2)
    else if is_keyword ident then (false, l)
    else (true, l)

/-- Parenthesis-matching loop of `is_function_declaration`, lines 182-187:
adjust the nesting depth for `(` and `)` and advance, while the depth is
positive and the lookahead is not NUL.  Structural on the remaining input
(kept in lockstep with the cursor). -/
def matchParensAux : List Char → Nat → Lexer → Nat × Lexer
  | [], depth, l => (depth, l)
  | c :: cs, depth, l =>
    if depth = 0 ∨ c = nul then (depth, l)
    else
      matchParensAux cs
        (if c = '(' then depth + 1 else if c = ')' then depth - 1 else depth)
        (l.advance false)

/-- `is_function_declaration`, lines 175-202: require `(`, run the
depth-counting scan from depth 1, reject if it ends with nonzero depth, then
skip whitespace and accept exactly a `{` or the two-character `=>`. -/
def fd_tail (l : Lexer) : Bool × Lexer :=
  if l.lookahead ≠ '(' then (false, l)
  else
    let l := l.advance false
    let m := matchParensAux l.rem 1 l
    if m.1 ≠ 0 then (false, m.2)
    else
      let l := skip_whitespace m.2
      if l.lookahead = Char.ofNat 123 then (true, l)
      else if l.lookahead = '=' then
        let l2 := l.advance false
        (l2.lookahead = '>', l2)
      else (false, l)

/-- `is_function_declaration` from scanner.c: identifier/keyword phase
followed by the parenthesis-and-body phase.  `g` is the indeterminate prior
contents of the 16-byte `ident` buffer. -/
def is_function_declaration (g : List Char) (l : Lexer) : Bool × Lexer :=
  let r := fd_ident_phase g l
  if r.1 then fd_tail r.2 else (false, r.2)

/-- `is_optional_marker` from scanner.c: require `?`, consume it, skip all
whitespace, and accept iff the follower is one of `)`, `]`, `}`, `,`, `:` or
end of input. -/
def is_optional_marker (l : Lexer) : Bool × Lexer :=
  if l.lookahead ≠ '?' then (false, l)
  else
    let l := l.advance false
    let l := skip_whitespace l
    ((l.lookahead = ')' || l.lookahead = ']' || l.lookahead = Char.ofNat 125 ||
      l.lookahead = ',' || l.lookahead = ':' || l.eof), l)

/-- `is_empty_arg` from scanner.c: skip whitespace, accept iff a comma
follows. -/
def is_empty_arg (l : Lexer) : Bool × Lexer :=
  let l := skip_whitespace l
  (l.lookahead = ',', l)

/-- Prefix-sign block of `is_implicit_concatenation` (lines 279-304; the C
code repeats this block verbatim for `+` and for `-`): mark the commit
point before the sign, consume the sign, and reject when horizontal
whitespace follows, the same sign repeats, or input ends; otherwise accept
iff an expression-starting character follows. -/
def prefix_sign_branch (sign : Char) (l : Lexer) : Bool × Lexer :=
  let l := l.markEnd
  let l := l.advance false
  let s2 := skip_horizontal_ws l
  let l := s2.2
  if s2.1 || l.lookahead = sign || l.eof then (false, l)
  else
    let l := (skip_horizontal_ws l).2
    (!l.eof && is_expression_start l.lookahead, l)

/-- `is_implicit_concatenation` from scanner.c.  `g` is the indeterminate
prior contents of the 4-byte `ident` buffer used for the operator-keyword
check. -/
def is_implicit_concatenation (g : List Char) (l : Lexer) : Bool × Lexer :=
  let s := skip_horizontal_ws l
  let l := s.2
  if !s.1 then (false, l)
  else if is_eol l.lookahead || l.eof then (false, l)
  else if is_operator_start l.lookahead then (false, l)
  else if is_expression_start l.lookahead then
    if l.lookahead = '+' then prefix_sign_branch '+' l
    else if l.lookahead = '-' then prefix_sign_branch '-' l
    else
      let l := l.markEnd
      if starts_operator_keyword l.lookahead then
        let r := skip_identifier g 4 l
        if is_operator_keyword r.2.1 then (false, r.2.2)
        else (true, r.2.2)
      else (true, l)
  else (false, l)

/-- Option-scanning loop of `is_continuation_start`, lines 353-409, with
fuel (each iteration consumes at least one character, so remaining-input
length plus one is always enough fuel).  The `opt` buffer is `memset` to NUL
before each iteration, hence the zeroed 10-byte buffers. -/
def contOptLoop : Nat → Lexer → Option (Bool × Lexer)
  | 0, _ => none
  | fuel + 1, l =>
    if !is_eol l.lookahead then
      if l.eof then some (false, l)
      else if l.lookahead = 'j' || l.lookahead = 'J' then
        let r := skip_identifier (List.replicate 10 nul) 5 l
        if !strcaseeq r.2.1 kwJoin then some (false, r.2.2)
        else
          let l := skip_to_whitespace r.2.2
          let l := (skip_horizontal_ws l).2
          contOptLoop fuel l
      else if l.lookahead = 'c' || l.lookahead = 'C' then
        let r := skip_identifier (List.replicate 10 nul) 10 l
        if !(strcaseeq r.2.1 "comments".toList || strcaseeq r.2.1 "comment".toList ||
             strcaseeq r.2.1 "com".toList || strcaseeq r.2.1 "c".toList) then
          some (false, r.2.2)
        else
          let l := (skip_horizontal_ws r.2.2).2
          contOptLoop fuel l
      else if l.lookahead = 'l' || l.lookahead = 'L' ||
              l.lookahead = 'r' || l.lookahead = 'R' then
        let r := skip_identifier (List.replicate 10 nul) 10 l
        if !(strcaseeq r.2.1 "ltrim".toList || strcaseeq r.2.1 "ltrim0".toList ||
             strcaseeq r.2.1 "rtrim0".toList) then
          some (false, r.2.2)
        else
          let l := (skip_horizontal_ws r.2.2).2
          contOptLoop fuel l
      else if l.lookahead = btick then
        let l := l.advance false
        let l := (skip_horizontal_ws l).2
        contOptLoop fuel l
      else some (false, l)
    else some (true, l)

/-- `is_continuation_start` from scanner.c: the `(` must begin on its own
line; consume it, mark the commit point, then scan the option tokens. -/
def is_continuation_start (fuel : Nat) (l : Lexer) : Option (Bool × Lexer) :=
  let l := (skip_horizontal_ws l).2
  if l.eof then some (false, l)
  else if !is_eol l.lookahead then some (false, l)
  else
    let l := skip_whitespace l
    if l.lookahead ≠ '(' then some (false, l)
    else
      let l := (l.advance false).markEnd
      let l := (skip_horizontal_ws l).2
      contOptLoop fuel l

/-- `scan_continuation_newline` from scanner.c: skip horizontal whitespace,
fail at end of input, and on a line terminator run `skip_eol` (which may
fail to terminate: `none`) and mark the commit point. -/
def scan_continuation_newline (fuel : Nat) (l : Lexer) : Option (Bool × Lexer) :=
  let l := (skip_horizontal_ws l).2
  if l.eof then some (false, l)
  else if is_eol l.lookahead then
    match skipEol fuel l with
    | none => none
    | some l' => some (true, l'.markEnd)
  else some (false, l)

/-- The external token kinds, in the order of scanner.c's `TokenType` enum. -/
inductive TokenType where
  | optionalMarker
  | functionDefMarker
  | emptyArg
  | implicitConcatMarker
  | continuationSectionStart
  | continuationNewline
deriving Repr, DecidableEq

/-- Scan entry point, function-declaration block (lines 487-494): the last
recognizer tried. -/
def scanStepFD (g16 : List Char) (valid : TokenType → Bool) (l : Lexer) :
    Option (Bool × Option TokenType × Lexer) :=
  if valid .functionDefMarker then
    let l := l.markEnd
    match is_function_declaration g16 l with
    | (true, l) => some (true, some .functionDefMarker, l)
    | (false, l) => some (false, none, l)
  else some (false, none, l)

/-- Scan entry point, continuation-newline block (lines 476-483) and after. -/
def scanStepContNL (fuel : Nat) (g16 : List Char) (valid : TokenType → Bool)
    (l : Lexer) : Option (Bool × Option TokenType × Lexer) :=
  if valid .continuationNewline then
    let l := l.markEnd
    match scan_continuation_newline fuel l with
    | none => none
    | some (true, l) => some (true, some .continuationNewline, l)
    | some (false, l) => scanStepFD g16 valid l
  else scanStepFD g16 valid l

/-- Scan entry point, continuation-section-start block (lines 467-474) and
after. -/
def scanStepContStart (fuel : Nat) (g16 : List Char) (valid : TokenType → Bool)
    (l : Lexer) : Option (Bool × Option TokenType × Lexer) :=
  if valid .continuationSectionStart then
    let l := l.markEnd
    match is_continuation_start fuel l with
    | none => none
    | some (true, l) => some (true, some .continuationSectionStart, l)
    | some (false, l) => scanStepContNL fuel g16 valid l
  else scanStepContNL fuel g16 valid l

/-- Scan entry point, implicit-concatenation block (lines 458-465) and after. -/
def scanStepImplicit (fuel : Nat) (g4 g16 : List Char) (valid : TokenType → Bool)
    (l : Lexer) : Option (Bool × Option TokenType × Lexer) :=
  if valid .implicitConcatMarker then
    let l := l.markEnd
    match is_implicit_concatenation g4 l with
    | (true, l) => some (true, some .implicitConcatMarker, l)
    | (false, l) => scanStepContStart fuel g16 valid l
  else scanStepContStart fuel g16 valid l

/-- Scan entry point, empty-argument block (lines 449-456) and after. -/
def scanStepEmpty (fuel : Nat) (g4 g16 : List Char) (valid : TokenType → Bool)
    (l : Lexer) : Option (Bool × Option TokenType × Lexer) :=
  if valid .emptyArg then
    let l := l.markEnd
    match is_empty_arg l with
    | (true, l) => some (true, some .emptyArg, l)
    | (false, l) => scanStepImplicit fuel g4 g16 valid l
  else scanStepImplicit fuel g4 g16 valid l

/-- `tree_sitter_autohotkey_external_scanner_scan`: the dispatcher.  `valid`
is the valid-symbol vector; on success the result carries the matched token
kind.  `none` propagates non-termination of a fueled recognizer. -/
def scan (fuel : Nat) (g4 g16 : List Char) (valid : TokenType → Bool)
    (l : Lexer) : Option (Bool × Option TokenType × Lexer) :=
  if valid .optionalMarker then
    match is_optional_marker l with
    | (true, l) => some (true, some .optionalMarker, l)
    | (false, l) => scanStepEmpty fuel g4 g16 valid l
  else scanStepEmpty fuel g4 g16 valid l

/-- Specification-side view of one dispatcher entry: the recognizer a token
kind designates, including the `mark_end` the dispatcher performs before it
(the optional-marker recognizer is the one entry run without a prior
`mark_end`). -/
def recognizerAt (fuel : Nat) (g4 g16 : List Char) :
    TokenType → Lexer → Option (Bool × Lexer)
  | .optionalMarker, l => some (is_optional_marker l)
  | .emptyArg, l => some (is_empty_arg l.markEnd)
  | .implicitConcatMarker, l => some (is_implicit_concatenation g4 l.markEnd)
  | .continuationSectionStart, l => is_continuation_start fuel l.markEnd
  | .continuationNewline, l => scan_continuation_newline fuel l.markEnd
  | .functionDefMarker, l => some (is_function_declaration g16 l.markEnd)

/-- The fixed dispatch priority order stated by the specification:
optional-marker, empty-argument, implicit-concatenation,
continuation-section-start, continuation-newline, function-declaration. -/
def dispatchOrder : List TokenType :=
  [.optionalMarker, .emptyArg, .implicitConcatMarker,
   .continuationSectionStart, .continuationNewline, .functionDefMarker]

/-- Specification-side dispatcher: try the listed token kinds in order,
running a recognizer only when its kind is valid, and return the first
match; with no valid kind matching, report failure. -/
def runTable (fuel : Nat) (g4 g16 : List Char) :
    List TokenType → (TokenType → Bool) → Lexer →
    Option (Bool × Option TokenType × Lexer)
  | [], _, l => some (false, none, l)
  | k :: ks, valid, l =>
    if valid k then
      match recognizerAt fuel g4 g16 k l with
      | none => none
      | some (true, l) => some (true, some k, l)
      | some (false, l) => runTable fuel g4 g16 ks valid l
    else runTable fuel g4 g16 ks valid l

/-! ### Specification-side definitions used by the claims -/

/-- Specification-side case-insensitive equality of two character lists
(no C-string/NUL conventions): equal lengths and ASCII-case-folded equal
characters. -/
def caseEqv : List Char → List Char → Bool
  | [], [] => true
  | x :: xs, y :: ys => lowc x = lowc y && caseEqv xs ys
  | _, _ => false

/-- All keywords `is_keyword` compares against, in the code's order. -/
def codeKws : List (List Char) :=
  [kwAnd, kwNot, kwIs, kwOr, kwContains,
   "if".toList, "else".toList, "while".toList, "for".toList, "loop".toList,
   kwThrow, "try".toList, "catch".toList, "finally".toList, "break".toList,
   "continue".toList, "as".toList, "in".toList, "switch".toList, "case".toList,
   "default".toList, "goto".toList, "return".toList]

/-- The reserved keywords the specification lists for the
function-declaration guard (the code additionally rejects `throw`). -/
def reservedKws : List (List Char) :=
  ["if".toList, "while".toList, "for".toList, "loop".toList, "try".toList,
   "catch".toList, "finally".toList, "else".toList, "switch".toList,
   "case".toList, "default".toList, "goto".toList, "return".toList,
   "break".toList, "continue".toList, "as".toList, "in".toList,
   kwAnd, kwOr, kwNot, kwIs, kwContains]

/-- The identifier at the cursor (maximal identifier-character run) after
skipping leading whitespace: what `is_function_declaration` captures. -/
def fdIdentOf (l : Lexer) : List Char :=
  (skip_whitespace l).rem.takeWhile is_identifier_char

/-- Pure twin of the depth-counting loop: final depth and remaining input. -/
def parenScan : List Char → Nat → Nat × List Char
  | [], depth => (depth, [])
  | c :: cs, depth =>
    if depth = 0 ∨ c = nul then (depth, c :: cs)
    else parenScan cs (if c = '(' then depth + 1 else if c = ')' then depth - 1 else depth)

/-- Specification-side balanced-group scan, from the claim's wording: scan
with nested depth counting until the depth returns to zero, yielding the
rest of the input; input ending (or a NUL lookahead) before depth zero
yields nothing. -/
def balancedSkip : Nat → List Char → Option (List Char)
  | 0, cs => some cs
  | _ + 1, [] => none
  | d + 1, c :: cs =>
    if c = nul then none
    else balancedSkip (if c = '(' then d + 2 else if c = ')' then d else d + 1) cs

/-- Specification-side body requirement from the claim: a `(`, a balanced
group, and after whitespace skipping a `{` or the two-character `=>`. -/
def fdTailSpec (cs : List Char) : Prop :=
  cHead cs = '(' ∧
  ∃ rest, balancedSkip 1 cs.tail = some rest ∧
    (cHead (rest.dropWhile is_whitespace) = Char.ofNat 123 ∨
     (rest.dropWhile is_whitespace).take 2 = ['=', '>'])

/-- Specification-side acceptance of a continuation-section option line,
following the spec's option vocabulary: each token before the line
terminator must be a `join<text>` token (first four letters spelling
`join`, case-insensitively, with arbitrary delimiter text skipped after), a
comment option (`comments`/`comment`/`com`/`c`), a trim option
(`ltrim`/`ltrim0`/`rtrim0`), or a literal backtick; the scan ends
successfully at a line terminator — where, as the code has it, a NUL
lookahead (hence end of input) counts as a line terminator. -/
inductive OptsAccepted : List Char → Prop where
  | terminator (cs : List Char) :
      is_eol (cHead cs) = true → OptsAccepted cs
  | joinOpt (cs : List Char) :
      (cHead cs = 'j' ∨ cHead cs = 'J') →
      caseEqv ((cs.takeWhile is_identifier_char).take 4) kwJoin = true →
      OptsAccepted (((cs.dropWhile is_identifier_char).dropWhile
        (fun c => !is_whitespace c)).dropWhile isHws) →
      OptsAccepted cs
  | commentOpt (cs : List Char) :
      (cHead cs = 'c' ∨ cHead cs = 'C') →
      (caseEqv (cs.takeWhile is_identifier_char) "comments".toList ||
       caseEqv (cs.takeWhile is_identifier_char) "comment".toList ||
       caseEqv (cs.takeWhile is_identifier_char) "com".toList ||
       caseEqv (cs.takeWhile is_identifier_char) "c".toList) = true →
      OptsAccepted ((cs.dropWhile is_identifier_char).dropWhile isHws) →
      OptsAccepted cs
  | trimOpt (cs : List Char) :
      (cHead cs = 'l' ∨ cHead cs = 'L' ∨ cHead cs = 'r' ∨ cHead cs = 'R') →
      (caseEqv (cs.takeWhile is_identifier_char) "ltrim".toList ||
       caseEqv (cs.takeWhile is_identifier_char) "ltrim0".toList ||
       caseEqv (cs.takeWhile is_identifier_char) "rtrim0".toList) = true →
      OptsAccepted ((cs.dropWhile is_identifier_char).dropWhile isHws) →
      OptsAccepted cs
  | backtickOpt (cs : List Char) :
      cHead cs = btick →
      OptsAccepted (cs.tail.dropWhile isHws) →
      OptsAccepted cs

/-- Specification-side acceptance for the continuation-section-start
recognizer: after horizontal whitespace the input must not be exhausted and
the next character must be a line terminator (so a `(` on the current line
always declines), after all whitespace a `(` must be present, and the
option tokens after it (up to the line terminator, with a NUL lookahead —
end of input — counting as one) must all be accepted. -/
def ContStartOk (cs : List Char) : Prop :=
  cs.dropWhile isHws ≠ [] ∧
  is_eol (cHead (cs.dropWhile isHws)) = true ∧
  cHead ((cs.dropWhile isHws).dropWhile is_whitespace) = '(' ∧
  OptsAccepted ((((cs.dropWhile isHws).dropWhile is_whitespace).tail).dropWhile isHws)

/-! ### Basic facts about characters and the cursor -/

theorem is_identifier_char_ne_nul {c : Char} (h : is_identifier_char c = true) :
    c ≠ nul := by
  rintro rfl
  exact absurd h (by decide)

theorem cHead_cons (c : Char) (cs : List Char) : cHead (c :: cs) = c := rfl

theorem cHead_eq_of_ne_nul {cs : List Char} {c : Char} (h : cHead cs = c)
    (hne : c ≠ nul) : cs = c :: cs.tail := by
  cases cs with
  | nil => exact absurd h (by simpa [cHead] using fun hh => hne hh.symm)
  | cons x xs => simpa [cHead] using h

theorem dropWhile_of_head_false {p : Char → Bool} {cs : List Char}
    (h : p (cHead cs) = false) : cs.dropWhile p = cs := by
  cases cs with
  | nil => rfl
  | cons x xs => simp [List.dropWhile, cHead] at h ⊢; simp [h]

theorem takeWhile_of_head_false {p : Char → Bool} {cs : List Char}
    (h : p (cHead cs) = false) : cs.takeWhile p = [] := by
  cases cs with
  | nil => rfl
  | cons x xs => simp [List.takeWhile, cHead] at h ⊢; simp [h]

theorem takeWhile_head {p : Char → Bool} {cs t : List Char} {c : Char}
    (h : cs.takeWhile p = c :: t) : cHead cs = c ∧ p c = true := by
  cases cs with
  | nil => simp [List.takeWhile] at h
  | cons x xs =>
    by_cases hp : p x
    · simp [List.takeWhile, hp] at h
      exact ⟨by simp [cHead, h.1], h.1 ▸ hp⟩
    · simp [List.takeWhile, hp] at h

/-! ### Characterizations of the whitespace and identifier skippers -/

theorem skipWhitespaceAux_spec :
    ∀ (rem : List Char) (l : Lexer), l.rem = rem →
      skipWhitespaceAux rem l =
        ⟨rem.dropWhile is_whitespace,
         l.pos + (rem.takeWhile is_whitespace).length, l.marked, l.sig⟩ := by
  intro rem
  induction rem with
  | nil =>
    rintro ⟨r, p, m, sg⟩ h
    cases h
    rfl
  | cons c cs ih =>
    rintro ⟨r, p, m, sg⟩ h
    cases h
    by_cases hw : is_whitespace c
    · rw [skipWhitespaceAux, if_pos hw,
        ih _ (by simp [Lexer.advance])]
      simp [Lexer.advance, List.dropWhile, List.takeWhile, hw]
      omega
    · rw [skipWhitespaceAux, if_neg hw]
      simp [List.dropWhile, List.takeWhile, hw]

theorem skip_whitespace_spec (l : Lexer) :
    skip_whitespace l =
      ⟨l.rem.dropWhile is_whitespace,
       l.pos + (l.rem.takeWhile is_whitespace).length, l.marked, l.sig⟩ :=
  skipWhitespaceAux_spec l.rem l rfl

theorem skipToWhitespaceAux_spec :
    ∀ (rem : List Char) (l : Lexer), l.rem = rem →
      skipToWhitespaceAux rem l =
        ⟨rem.dropWhile (fun c => !is_whitespace c),
         l.pos + (rem.takeWhile (fun c => !is_whitespace c)).length, l.marked,
         l.sig ++ rem.takeWhile (fun c => !is_whitespace c)⟩ := by
  intro rem
  induction rem with
  | nil =>
    rintro ⟨r, p, m, sg⟩ h
    cases h
    simp [skipToWhitespaceAux]
  | cons c cs ih =>
    rintro ⟨r, p, m, sg⟩ h
    cases h
    by_cases hw : is_whitespace c
    · rw [skipToWhitespaceAux, if_neg (by simp [hw])]
      simp [List.dropWhile, List.takeWhile, hw]
    · rw [skipToWhitespaceAux, if_pos (by simp [hw]),
        ih _ (by simp [Lexer.advance])]
      simp [Lexer.advance, List.dropWhile, List.takeWhile, hw]
      omega

theorem skip_to_whitespace_spec (l : Lexer) :
    skip_to_whitespace l =
      ⟨l.rem.dropWhile (fun c => !is_whitespace c),
       l.pos + (l.rem.takeWhile (fun c => !is_whitespace c)).length, l.marked,
       l.sig ++ l.rem.takeWhile (fun c => !is_whitespace c)⟩ :=
  skipToWhitespaceAux_spec l.rem l rfl

theorem skipHorizontalWsAux_spec :
    ∀ (rem : List Char) (l : Lexer), l.rem = rem →
      skipHorizontalWsAux rem l =
        (isHws (cHead rem),
         ⟨rem.dropWhile isHws, l.pos + (rem.takeWhile isHws).length, l.marked,
          l.sig ++ rem.takeWhile isHws⟩) := by
  intro rem
  induction rem with
  | nil =>
    rintro ⟨r, p, m, sg⟩ h
    cases h
    simp [skipHorizontalWsAux, cHead, isHws]
    decide
  | cons c cs ih =>
    rintro ⟨r, p, m, sg⟩ h
    cases h
    by_cases hw : (c = ' ' || c = '\t') = true
    · rw [skipHorizontalWsAux, if_pos hw, ih _ (by simp [Lexer.advance])]
      simp [Lexer.advance, List.dropWhile, List.takeWhile, cHead, isHws, hw]
      omega
    · rw [skipHorizontalWsAux, if_neg hw]
      have hw' : isHws c = false := by simpa [isHws] using hw
      simp [List.dropWhile, List.takeWhile, cHead, hw']

theorem skip_horizontal_ws_spec (l : Lexer) :
    skip_horizontal_ws l =
      (isHws (cHead l.rem),
       ⟨l.rem.dropWhile isHws, l.pos + (l.rem.takeWhile isHws).length, l.marked,
        l.sig ++ l.rem.takeWhile isHws⟩) :=
  skipHorizontalWsAux_spec l.rem l rfl

theorem skipIdentifierAux_spec (bufSize : Nat) :
    ∀ (rem buf : List Char) (len : Nat) (l : Lexer), l.rem = rem →
      skipIdentifierAux bufSize rem buf len l =
        (len + (rem.takeWhile is_identifier_char).length,
         captureGen bufSize buf len (rem.takeWhile is_identifier_char),
         ⟨rem.dropWhile is_identifier_char,
          l.pos + (rem.takeWhile is_identifier_char).length, l.marked,
          l.sig ++ rem.takeWhile is_identifier_char⟩) := by
  intro rem
  induction rem with
  | nil =>
    rintro buf len ⟨r, p, m, sg⟩ h
    cases h
    simp [skipIdentifierAux, captureGen]
  | cons c cs ih =>
    rintro buf len ⟨r, p, m, sg⟩ h
    cases h
    by_cases hc : is_identifier_char c
    · rw [skipIdentifierAux, if_pos hc, ih _ _ _ (by simp [Lexer.advance])]
      simp [Lexer.advance, List.dropWhile, List.takeWhile, hc, captureGen]
      omega
    · rw [skipIdentifierAux, if_neg hc]
      simp [List.dropWhile, List.takeWhile, hc, captureGen]

theorem skip_identifier_spec (buf : List Char) (bufSize : Nat) (l : Lexer) :
    skip_identifier buf bufSize l =
      ((l.rem.takeWhile is_identifier_char).length,
       captureGen bufSize buf 0 (l.rem.takeWhile is_identifier_char),
       ⟨l.rem.dropWhile is_identifier_char,
        l.pos + (l.rem.takeWhile is_identifier_char).length, l.marked,
        l.sig ++ l.rem.takeWhile is_identifier_char⟩) := by
  have := skipIdentifierAux_spec bufSize l.rem buf 0 l rfl
  simpa [skip_identifier] using this

/-! ### Case-insensitive comparison and the capture buffer -/

theorem caseEqv_iff_map :
    ∀ (a b : List Char), caseEqv a b = true ↔ a.map lowc = b.map lowc := by
  intro a
  induction a with
  | nil => intro b; cases b <;> simp [caseEqv]
  | cons x xs ih =>
    intro b
    cases b with
    | nil => simp [caseEqv]
    | cons y ys => simp [caseEqv, ih]

theorem caseEqv_length {a b : List Char} (h : caseEqv a b = true) :
    a.length = b.length := by
  have := (caseEqv_iff_map a b).1 h
  calc a.length = (a.map lowc).length := by simp
    _ = (b.map lowc).length := by rw [this]
    _ = b.length := by simp

theorem caseEqv_ne_length {a b : List Char} (h : a.length ≠ b.length) :
    caseEqv a b = false := by
  by_contra hc
  exact h (caseEqv_length (by simpa using hc))

theorem caseEqv_take {a kw : List Char} {n : Nat} (h : kw.length < n) :
    caseEqv (a.take n) kw = caseEqv a kw := by
  by_cases hl : a.length ≤ n
  · rw [List.take_of_length_le hl]
  · rw [caseEqv_ne_length (by simp; omega), caseEqv_ne_length (by omega)]

theorem strcaseeq_append_nul :
    ∀ (id kw tail : List Char), (∀ c ∈ id, c ≠ nul) → (∀ c ∈ kw, c ≠ nul) →
      strcaseeq (id ++ nul :: tail) kw = caseEqv id kw := by
  intro id
  induction id with
  | nil =>
    intro kw tail _ hkw
    cases kw with
    | nil => simp [strcaseeq, caseEqv]
    | cons y ys =>
      have : y ≠ nul := hkw y (by simp)
      simp [strcaseeq, caseEqv]
      exact fun h => this h.symm
  | cons x xs ih =>
    intro kw tail hid hkw
    have hx : x ≠ nul := hid x (by simp)
    cases kw with
    | nil => simp [strcaseeq, caseEqv, hx]
    | cons y ys =>
      have hy : y ≠ nul := hkw y (by simp)
      rw [List.cons_append, strcaseeq, if_neg (by tauto)]
      by_cases hl : lowc x = lowc y
      · rw [if_pos hl, ih ys tail (fun c hc => hid c (by simp [hc]))
          (fun c hc => hkw c (by simp [hc]))]
        simp [caseEqv, hl]
      · rw [if_neg hl]
        simp [caseEqv, hl]

theorem strcaseeq_long_nonnul :
    ∀ (kw a : List Char), kw.length < a.length →
      (∀ c ∈ a.take (kw.length + 1), c ≠ nul) →
      strcaseeq a kw = false := by
  intro kw
  induction kw with
  | nil =>
    intro a hlen hnul
    cases a with
    | nil => simp at hlen
    | cons c cs =>
      have : c ≠ nul := hnul c (by simp)
      simp [strcaseeq, this]
  | cons y ys ih =>
    intro a hlen hnul
    cases a with
    | nil => simp at hlen
    | cons c cs =>
      have hc : c ≠ nul := hnul c (by simp [List.take])
      by_cases hy : y = nul
      · subst hy
        rw [strcaseeq, if_pos (by tauto)]
        simp [hc]
      · rw [strcaseeq, if_neg (by tauto)]
        by_cases hl : lowc c = lowc y
        · rw [if_pos hl]
          refine ih cs (by simpa using hlen) ?_
          intro d hd
          exact hnul d (by simp [List.take]; right; simpa using hd)
        · rw [if_neg hl]

theorem set_append_left (pre : List Char) :
    ∀ (suf : List Char) (c : Char), (pre ++ suf).set pre.length c = pre ++ suf.set 0 c := by
  induction pre with
  | nil => intro suf c; rfl
  | cons x xs ih => intro suf c; simp [List.set, ih]

theorem captureGen_within :
    ∀ (id pre suf : List Char) (B : Nat),
      pre.length + id.length + 1 ≤ B → B ≤ pre.length + suf.length →
      captureGen B (pre ++ suf) pre.length id =
        pre ++ id ++ nul :: suf.drop (id.length + 1) := by
  intro id
  induction id with
  | nil =>
    intro pre suf B h1 h2
    cases suf with
    | nil => omega
    | cons s rest =>
      rw [captureGen, if_pos (by omega), set_append_left]
      simp [List.set]
  | cons c cs ih =>
    intro pre suf B h1 h2
    simp only [List.length_cons] at h1
    cases suf with
    | nil => simp at h2; omega
    | cons s rest =>
      simp only [List.length_cons] at h2
      rw [captureGen, if_pos (by omega), set_append_left]
      have : pre ++ (s :: rest).set 0 c = (pre ++ [c]) ++ rest := by
        simp [List.set]
      rw [this]
      have hlen : (pre ++ [c]).length = pre.length + 1 := by simp
      have := ih (pre ++ [c]) rest B (by simp; omega) (by simp; omega)
      rw [hlen] at this
      rw [this]
      simp [List.drop]

theorem captureGen_saturated :
    ∀ (id : List Char) (buf : List Char) (B len : Nat),
      B ≤ len → captureGen B buf len id = buf := by
  intro id
  induction id with
  | nil => intro buf B len h; rw [captureGen, if_neg (by omega)]
  | cons c cs ih =>
    intro buf B len h
    rw [captureGen, if_neg (by omega), ih _ _ _ (by omega)]

theorem captureGen_overflow :
    ∀ (id pre suf : List Char) (B : Nat),
      1 ≤ B → B ≤ pre.length + id.length → pre.length ≤ B - 1 →
      B ≤ pre.length + suf.length →
      captureGen B (pre ++ suf) pre.length id =
        pre ++ id.take (B - 1 - pre.length) ++ suf.drop (B - 1 - pre.length) := by
  intro id
  induction id with
  | nil => intro pre suf B hB h1 h2 h3; simp at h1; omega
  | cons c cs ih =>
    intro pre suf B hB h1 h2 h3
    simp only [List.length_cons] at h1
    by_cases hlt : pre.length < B - 1
    · cases suf with
      | nil => simp at h3; omega
      | cons s rest =>
        simp only [List.length_cons] at h3
        rw [captureGen, if_pos hlt, set_append_left]
        have heq : pre ++ (s :: rest).set 0 c = (pre ++ [c]) ++ rest := by
          simp [List.set]
        rw [heq]
        have hlen : (pre ++ [c]).length = pre.length + 1 := by simp
        have := ih (pre ++ [c]) rest B hB (by simp; omega)
          (by simp; omega) (by simp; omega)
        rw [hlen] at this
        rw [this]
        have e1 : (c :: cs).take (B - 1 - pre.length) =
            c :: cs.take (B - 1 - (pre.length + 1)) := by
          have : B - 1 - pre.length = (B - 1 - (pre.length + 1)) + 1 := by omega
          rw [this, List.take_succ_cons]
        have e2 : (s :: rest).drop (B - 1 - pre.length) =
            rest.drop (B - 1 - (pre.length + 1)) := by
          have : B - 1 - pre.length = (B - 1 - (pre.length + 1)) + 1 := by omega
          rw [this, List.drop_succ_cons]
        rw [e1, e2]
        simp
    · have hpe : pre.length = B - 1 := by omega
      rw [captureGen, if_neg (by omega), captureGen_saturated _ _ _ _ (by omega)]
      simp [hpe]

theorem strcaseeq_capture16 (g id kw : List Char) (hg : g.length = 16)
    (hid : ∀ c ∈ id, is_identifier_char c = true)
    (hkw : ∀ c ∈ kw, c ≠ nul) (hlen : kw.length ≤ 14) :
    strcaseeq (captureGen 16 g 0 id) kw = caseEqv id kw := by
  have hidn : ∀ c ∈ id, c ≠ nul := fun c hc => is_identifier_char_ne_nul (hid c hc)
  by_cases hsz : id.length ≤ 15
  · have := captureGen_within id [] g 16 (by simp; omega) (by simp [hg])
    simpa using this ▸ strcaseeq_append_nul id kw (g.drop (id.length + 1)) hidn hkw
  · have hcap := captureGen_overflow id [] g 16 (by omega) (by simp; omega)
      (by simp) (by simp [hg])
    simp only [List.nil_append, List.length_nil, Nat.sub_zero] at hcap
    rw [hcap]
    rw [strcaseeq_long_nonnul kw _ (by simp [hg]; omega) ?_]
    · rw [caseEqv_ne_length (by omega)]
    · intro c hc
      apply hidn c
      have h1 : (id.take 15 ++ g.drop 15).take (kw.length + 1) =
          (id.take 15).take (kw.length + 1) := by
        rw [List.take_append_of_le_length (by simp; omega)]
      rw [h1, List.take_take] at hc
      exact List.mem_of_mem_take hc

theorem strcaseeq_capture_zeroed (B L : Nat) (id kw : List Char)
    (hB : 1 ≤ B) (hBL : B ≤ L)
    (hid : ∀ c ∈ id, is_identifier_char c = true)
    (hkw : ∀ c ∈ kw, c ≠ nul) :
    strcaseeq (captureGen B (List.replicate L nul) 0 id) kw =
      caseEqv (id.take (B - 1)) kw := by
  have hidn : ∀ c ∈ id, c ≠ nul := fun c hc => is_identifier_char_ne_nul (hid c hc)
  by_cases hsz : id.length ≤ B - 1
  · have hcap := captureGen_within id [] (List.replicate L nul) B (by simp; omega)
      (by simp; omega)
    simp only [List.nil_append, List.length_nil, Nat.sub_zero] at hcap
    rw [hcap, List.take_of_length_le hsz,
      strcaseeq_append_nul id kw _ hidn hkw]
  · have hcap := captureGen_overflow id [] (List.replicate L nul) B hB (by simp; omega)
      (by simp) (by simp; omega)
    simp only [List.nil_append, List.length_nil, Nat.sub_zero] at hcap
    rw [hcap]
    have hrep : (List.replicate L nul).drop (B - 1) =
        nul :: List.replicate (L - B) nul := by
      rw [List.drop_replicate]
      have : L - (B - 1) = (L - B) + 1 := by omega
      rw [this, List.replicate_succ]
    rw [hrep, strcaseeq_append_nul (id.take (B - 1)) kw _
      (fun c hc => hidn c (List.mem_of_mem_take hc)) hkw]

/-! ### Helper facts for end-of-input behaviour -/

theorem advance_nil {l : Lexer} (h : l.rem = []) (sk : Bool) : l.advance sk = l := by
  obtain ⟨r, p, m, sg⟩ := l
  cases h
  rfl

theorem skipEol_rem_nil : ∀ (f : Nat) (l : Lexer), l.rem = [] → skipEol f l = none := by
  intro f
  induction f with
  | zero => intro l _; rfl
  | succ f ih =>
    intro l h
    rw [skipEol, if_pos (by simp [Lexer.lookahead, h, cHead, is_eol]), advance_nil h]
    exact ih _ h

theorem skipEol_newline_end : ∀ (f : Nat), skipEol f (initLex "\n") = none := by
  intro f
  cases f with
  | zero => rfl
  | succ f =>
    rw [skipEol, if_pos (by decide)]
    exact skipEol_rem_nil f _ (by decide)

/-! ### Claim theorems -/

/-- C1: the claim says the implicit-concatenation recognizer declines
whenever the identifier after the whitespace case-insensitively equals one
of the verbal operator keywords `and`, `not`, `is`, `or`, `contains`, and in
particular also for `contains`.  The code violates this for `contains`: the
4-byte capture buffer truncates the identifier to `con` plus whatever byte
was previously at index 3 (here NUL), which matches none of the keyword
comparisons, so on the input ` contains y` the recognizer accepts even
though the identifier there is case-insensitively exactly `contains`. -/
theorem implicit_concat_contains_accepted :
    caseEqv ((initLex " contains y").rem.tail.takeWhile is_identifier_char)
      kwContains = true ∧
    (is_implicit_concatenation (List.replicate 4 nul) (initLex " contains y")).1
      = true := by
  constructor
  · decide
  · decide

/-- C2: the claim says an identifier longer than the capture buffer never
falsely compares equal to a keyword, regardless of prior buffer contents.
The code violates this: capturing `ands` into the 4-byte buffer writes
`a`, `n`, `d` and no terminator, so when the prior content of index 3 is
NUL the captured C-string is exactly `and` and `strcaseeq` reports a
keyword match, although `ands` is not case-equal to `and`; inside
`is_implicit_concatenation` this wrongly rejects ` ands y`. -/
theorem truncated_capture_matches_keyword :
    caseEqv ("ands".toList) kwAnd = false ∧
    (skip_identifier (List.replicate 4 nul) 4 (initLex "ands")).2.1
      = ['a', 'n', 'd', nul] ∧
    strcaseeq (skip_identifier (List.replicate 4 nul) 4 (initLex "ands")).2.1
      kwAnd = true ∧
    (is_implicit_concatenation (List.replicate 4 nul) (initLex " ands y")).1
      = false := by
  refine ⟨by decide, by decide, by decide, by decide⟩

/-- C9: the claim says every recognizer invoked by the scan entry point
reaches a verdict on every finite input.  The code violates this in
`scan_continuation_newline`: on an input whose line terminator is the last
character, `skip_eol` consumes it, the lookahead becomes NUL (which
satisfies `is_eol`) and stays NUL since advancing at end of input is a
no-op, so the loop never exits — for every fuel bound the fueled model
still reports non-termination, both for the recognizer itself and for the
scan entry point invoking it. -/
theorem scanner_nontermination :
    (∀ fuel, scan_continuation_newline fuel (initLex "\n") = none) ∧
    (∀ fuel g4 g16, scan fuel g4 g16
      (fun k => k = TokenType.continuationNewline) (initLex "\n") = none) := by
  have key : ∀ fuel, scan_continuation_newline fuel (initLex "\n") =
      (match skipEol fuel (initLex "\n") with
       | none => none
       | some l' => some (true, l'.markEnd)) := by
    intro fuel; rfl
  constructor
  · intro fuel
    rw [key, skipEol_newline_end]
  · intro fuel g4 g16
    have : scan fuel g4 g16 (fun k => k = TokenType.continuationNewline)
        (initLex "\n") =
        (match scan_continuation_newline fuel (initLex "\n") with
         | none => none
         | some (true, l) => some (true, some TokenType.continuationNewline, l)
         | some (false, l) => some (false, none, l)) := by
      rfl
    rw [this, key, skipEol_newline_end]

/-- C3: with `?` as the lookahead, the optional-marker recognizer consumes
the `?` (the only character consumed as token content: the whitespace after
it is advanced with the insignificant-whitespace flag), skips all
whitespace including line breaks, and returns true exactly when the next
code point is one of `)`, `]`, `}`, `,`, `:` or the input is exhausted. -/
theorem optional_marker_spec (l : Lexer) (h : l.lookahead = '?') :
    is_optional_marker l =
      ((cHead (l.rem.tail.dropWhile is_whitespace) = ')' ||
        cHead (l.rem.tail.dropWhile is_whitespace) = ']' ||
        cHead (l.rem.tail.dropWhile is_whitespace) = Char.ofNat 125 ||
        cHead (l.rem.tail.dropWhile is_whitespace) = ',' ||
        cHead (l.rem.tail.dropWhile is_whitespace) = ':' ||
        (l.rem.tail.dropWhile is_whitespace).isEmpty),
       ⟨l.rem.tail.dropWhile is_whitespace,
        l.pos + 1 + (l.rem.tail.takeWhile is_whitespace).length,
        l.marked, l.sig ++ ['?']⟩) := by
  have hrem : l.rem = '?' :: l.rem.tail := cHead_eq_of_ne_nul h (by decide)
  obtain ⟨r, p, m, sg⟩ := l
  simp only [Lexer.lookahead] at h
  simp only at hrem
  rw [is_optional_marker, if_neg (by simp [Lexer.lookahead, h])]
  have hadv : Lexer.advance ⟨r, p, m, sg⟩ false =
      ⟨r.tail, p + 1, m, sg ++ ['?']⟩ := by
    conv_lhs => rw [hrem]
    rfl
  rw [hadv]
  simp [skip_whitespace_spec, Lexer.lookahead, Lexer.eof]

/-- Witness for C3 at the concrete input `?  )`. -/
theorem optional_marker_spec_witness :
    (initLex "?  )").lookahead = '?' ∧
    (is_optional_marker (initLex "?  )")).1 = true :=
  ⟨by decide, by rw [optional_marker_spec (initLex "?  )") (by decide)]; decide⟩

theorem prefix_sign_branch_spec (sign : Char) (l : Lexer)
    (hne : sign ≠ nul) (hsig : l.lookahead = sign) :
    (prefix_sign_branch sign l).1 =
      (!isHws (cHead l.rem.tail) && !(l.rem.tail.isEmpty) &&
       !(cHead l.rem.tail = sign) && is_expression_start (cHead l.rem.tail)) ∧
    (prefix_sign_branch sign l).2.marked = l.pos := by
  obtain ⟨r, p, m, sg⟩ := l
  dsimp only [Lexer.lookahead] at hsig
  have hrem : r = sign :: r.tail := cHead_eq_of_ne_nul hsig hne
  have hadv : (Lexer.mk r p p sg).advance false = ⟨r.tail, p + 1, p, sg ++ [sign]⟩ := by
    conv_lhs => rw [hrem]
    rfl
  unfold prefix_sign_branch
  dsimp only [Lexer.markEnd]
  rw [hadv, skip_horizontal_ws_spec]
  dsimp only [Lexer.lookahead, Lexer.eof]
  by_cases hA : isHws (cHead r.tail)
  · simp [hA]
  · have hA' : isHws (cHead r.tail) = false := by simpa using hA
    have hdrop : r.tail.dropWhile isHws = r.tail := dropWhile_of_head_false hA'
    have htake : r.tail.takeWhile isHws = [] := takeWhile_of_head_false hA'
    rw [hdrop, htake]
    by_cases hB : cHead r.tail = sign
    · simp [hA', hB]
    · by_cases hC : r.tail.isEmpty
      · have : r.tail = [] := by simpa [List.isEmpty_iff] using hC
        simp [hA', hB, this]
      · have hC' : r.tail.isEmpty = false := by simpa using hC
        rw [skip_horizontal_ws_spec]
        dsimp only [Lexer.lookahead, Lexer.eof]
        rw [hdrop, htake]
        simp [hA', hB, hC']

theorem skip_horizontal_ws_fst (l : Lexer) :
    (skip_horizontal_ws l).1 = isHws l.lookahead := by
  rw [skip_horizontal_ws_spec]; rfl

/-- C7: when the implicit-concatenation recognizer, after its mandatory
horizontal whitespace, sees `+` or `-`, it marks the commit point before
the sign (the returned commit position is the cursor position at the sign,
so the sign is not part of the token), and it accepts iff no horizontal
whitespace follows the sign, the input does not end there, the same sign
does not repeat, and the character after the sign can start an
expression. -/
theorem implicit_concat_sign_spec (g : List Char) (l : Lexer)
    (hws : isHws l.lookahead = true)
    (hsign : (skip_horizontal_ws l).2.lookahead = '+' ∨
             (skip_horizontal_ws l).2.lookahead = '-') :
    (is_implicit_concatenation g l).1 =
      (!isHws (cHead (skip_horizontal_ws l).2.rem.tail) &&
       !((skip_horizontal_ws l).2.rem.tail.isEmpty) &&
       !(cHead ((skip_horizontal_ws l).2.rem.tail) =
          (skip_horizontal_ws l).2.lookahead) &&
       is_expression_start (cHead (skip_horizontal_ws l).2.rem.tail)) ∧
    (is_implicit_concatenation g l).2.marked = (skip_horizontal_ws l).2.pos := by
  have hfst : (skip_horizontal_ws l).1 = true := by
    rw [skip_horizontal_ws_fst]; exact hws
  rcases hsign with h | h
  · have hrem : (skip_horizontal_ws l).2.rem =
        '+' :: (skip_horizontal_ws l).2.rem.tail := cHead_eq_of_ne_nul h (by decide)
    have heof : (skip_horizontal_ws l).2.eof = false := by
      rw [Lexer.eof, hrem]; rfl
    have hbr := prefix_sign_branch_spec '+' (skip_horizontal_ws l).2 (by decide) h
    have hred : is_implicit_concatenation g l =
        prefix_sign_branch '+' (skip_horizontal_ws l).2 := by
      unfold is_implicit_concatenation
      dsimp only
      rw [hfst, h, heof]
      simp [is_eol, is_operator_start, is_expression_start, is_identifier_char,
        is_alnum, is_alpha, nul, dquote, squote]
    rw [hred, h]
    exact hbr
  · have hrem : (skip_horizontal_ws l).2.rem =
        '-' :: (skip_horizontal_ws l).2.rem.tail := cHead_eq_of_ne_nul h (by decide)
    have heof : (skip_horizontal_ws l).2.eof = false := by
      rw [Lexer.eof, hrem]; rfl
    have hbr := prefix_sign_branch_spec '-' (skip_horizontal_ws l).2 (by decide) h
    have hred : is_implicit_concatenation g l =
        prefix_sign_branch '-' (skip_horizontal_ws l).2 := by
      unfold is_implicit_concatenation
      dsimp only
      rw [hfst, h, heof]
      simp [is_eol, is_operator_start, is_expression_start, is_identifier_char,
        is_alnum, is_alpha, nul, dquote, squote]
    rw [hred, h]
    exact hbr

/-- Witness for C7 at the concrete inputs ` +b` (accepted, commit point
before the sign) and ` + b` (declined: space after the sign). -/
theorem implicit_concat_sign_spec_witness :
    (isHws (initLex " +b").lookahead = true ∧
      (is_implicit_concatenation (List.replicate 4 nul) (initLex " +b")).1 = true ∧
      (is_implicit_concatenation (List.replicate 4 nul) (initLex " +b")).2.marked = 1) ∧
    (is_implicit_concatenation (List.replicate 4 nul) (initLex " + b")).1 = false := by
  refine ⟨⟨by decide, ?_, ?_⟩, ?_⟩
  · have := implicit_concat_sign_spec (List.replicate 4 nul) (initLex " +b")
      (by decide) (Or.inl (by decide))
    rw [this.1]; decide
  · have := implicit_concat_sign_spec (List.replicate 4 nul) (initLex " +b")
      (by decide) (Or.inl (by decide))
    rw [this.2]; decide
  · have := implicit_concat_sign_spec (List.replicate 4 nul) (initLex " + b")
      (by decide) (Or.inl (by decide))
    rw [this.1]; decide

/-! ### The function-declaration keyword guard -/

theorem is_keyword_eq_any (b : List Char) :
    is_keyword b = codeKws.any (fun kw => strcaseeq b kw) := by
  simp [is_keyword, is_operator_keyword, is_flow_keyword, codeKws, Bool.or_assoc]

theorem fd_reject_of_keyword (g : List Char) (l : Lexer) (kw : List Char)
    (hg : g.length = 16) (hmem : kw ∈ codeKws)
    (hkw : caseEqv (fdIdentOf l) kw = true)
    (hns : kw.map lowc ≠ kwStatic.map lowc) :
    (is_function_declaration g l).1 = false := by
  have hkwprops : ∀ k ∈ kwStatic :: codeKws, (∀ c ∈ k, c ≠ nul) ∧ k.length ≤ 14 := by
    decide
  have hkwne : ∀ k ∈ codeKws, k ≠ [] := by decide
  set id := fdIdentOf l with hid
  have hidchars : ∀ c ∈ id, is_identifier_char c = true := by
    intro c hc
    exact List.mem_takeWhile_imp hc
  have hidne : id ≠ [] := by
    intro hnil
    have := caseEqv_length hkw
    rw [hnil] at this
    exact hkwne kw hmem (List.eq_nil_of_length_eq_zero this.symm)
  obtain ⟨c0, t0, hct⟩ : ∃ c0 t0, id = c0 :: t0 := by
    cases hx : id with
    | nil => exact absurd hx hidne
    | cons a b => exact ⟨a, b, rfl⟩
  have hhead := takeWhile_head (hid ▸ hct)
  have hlook : is_identifier_char (skip_whitespace l).lookahead = true := by
    rw [Lexer.lookahead, hhead.1]
    exact hhead.2
  have hbridge : ∀ k ∈ kwStatic :: codeKws,
      strcaseeq (captureGen 16 g 0 id) k = caseEqv id k := by
    intro k hk
    exact strcaseeq_capture16 g id k hg hidchars (hkwprops k hk).1 (hkwprops k hk).2
  have hstatic : caseEqv id kwStatic = false := by
    by_contra hcontra
    have h1 : caseEqv id kwStatic = true := by simpa using hcontra
    have hm1 := (caseEqv_iff_map id kwStatic).1 h1
    have hm2 := (caseEqv_iff_map id kw).1 hkw
    exact hns (hm2 ▸ hm1)
  have hkwd : is_keyword (captureGen 16 g 0 id) = true := by
    rw [is_keyword_eq_any]
    refine List.any_eq_true.2 ⟨kw, hmem, ?_⟩
    rw [hbridge kw (by simp [hmem])]
    exact hkw
  unfold is_function_declaration fd_ident_phase
  dsimp only
  rw [hlook]
  rw [skip_identifier_spec]
  dsimp only
  have hid2 : List.takeWhile is_identifier_char (skip_whitespace l).rem = id := rfl
  rw [hid2, hbridge kwStatic (by simp), hstatic, hkwd]
  simp

theorem fd_reject_static (g : List Char) (l : Lexer) (hg : g.length = 16)
    (hst : caseEqv (fdIdentOf l) kwStatic = true)
    (hrest : isHws (cHead ((skip_whitespace l).rem.dropWhile is_identifier_char))
        = false ∨
      is_identifier_char (cHead (((skip_whitespace l).rem.dropWhile
        is_identifier_char).dropWhile isHws)) = false) :
    (is_function_declaration g l).1 = false := by
  set id := fdIdentOf l with hid
  have hidchars : ∀ c ∈ id, is_identifier_char c = true := by
    intro c hc
    exact List.mem_takeWhile_imp hc
  have hidne : id ≠ [] := by
    intro hnil
    have := caseEqv_length hst
    rw [hnil] at this
    simp [kwStatic] at this
  obtain ⟨c0, t0, hct⟩ : ∃ c0 t0, id = c0 :: t0 := by
    cases hx : id with
    | nil => exact absurd hx hidne
    | cons a b => exact ⟨a, b, rfl⟩
  have hhead := takeWhile_head (hid ▸ hct)
  have hlook : is_identifier_char (skip_whitespace l).lookahead = true := by
    rw [Lexer.lookahead, hhead.1]
    exact hhead.2
  have hbridge : strcaseeq (captureGen 16 g 0 id) kwStatic = caseEqv id kwStatic :=
    strcaseeq_capture16 g id kwStatic hg hidchars (by decide) (by decide)
  unfold is_function_declaration fd_ident_phase
  dsimp only
  rw [hlook]
  rw [skip_identifier_spec]
  dsimp only
  have hid2 : List.takeWhile is_identifier_char (skip_whitespace l).rem = id := rfl
  rw [hid2, hbridge, hst]
  rw [skip_horizontal_ws_spec]
  dsimp only
  cases hflag : isHws (cHead ((skip_whitespace l).rem.dropWhile is_identifier_char)) with
  | false => simp [hflag]
  | true =>
    rcases hrest with hrest | hrest
    · rw [hrest] at hflag; cases hflag
    · simp only [hflag, Bool.not_true, Bool.false_eq_true, if_false, if_true]
      rw [Lexer.lookahead]
      dsimp only
      rw [hrest]
      simp

/-- C5: the function-declaration recognizer rejects whenever the captured
leading identifier case-insensitively matches one of the reserved keywords
if, while, for, loop, try, catch, finally, else, switch, case, default,
goto, return, break, continue, as, in, and, or, not, is, contains; and when
it case-insensitively equals `static` it rejects unless at least one
horizontal-whitespace character and then a second identifier follow. -/
theorem fd_keyword_and_static_guard (g : List Char) (l : Lexer)
    (hg : g.length = 16) :
    (reservedKws.any (fun kw => caseEqv (fdIdentOf l) kw) = true →
      (is_function_declaration g l).1 = false) ∧
    (caseEqv (fdIdentOf l) kwStatic = true →
      (isHws (cHead ((skip_whitespace l).rem.dropWhile is_identifier_char))
          = false ∨
       is_identifier_char (cHead (((skip_whitespace l).rem.dropWhile
         is_identifier_char).dropWhile isHws)) = false) →
      (is_function_declaration g l).1 = false) := by
  constructor
  · intro h
    obtain ⟨kw, hmem, hkw⟩ := List.any_eq_true.1 h
    have hsub : ∀ k ∈ reservedKws, k ∈ codeKws ∧ k.map lowc ≠ kwStatic.map lowc := by
      decide
    exact fd_reject_of_keyword g l kw hg (hsub kw hmem).1 hkw (hsub kw hmem).2
  · intro h1 h2
    exact fd_reject_static g l hg h1 h2

/-- Witness for C5 at the concrete inputs `if(x){}` (keyword guard) and
`static(x){}` (no whitespace after `static`). -/
theorem fd_keyword_and_static_guard_witness :
    (is_function_declaration (List.replicate 16 nul) (initLex "if(x)\x7b\x7d")).1
      = false ∧
    (is_function_declaration (List.replicate 16 nul) (initLex "static(x)\x7b\x7d")).1
      = false := by
  constructor
  · exact (fd_keyword_and_static_guard (List.replicate 16 nul)
      (initLex "if(x)\x7b\x7d") (by decide)).1 (by decide)
  · exact (fd_keyword_and_static_guard (List.replicate 16 nul)
      (initLex "static(x)\x7b\x7d") (by decide)).2 (by decide) (Or.inl (by decide))

/-- C10: the function-declaration recognizer also rejects when the leading
identifier case-insensitively equals `throw`, although `throw` is absent
from the specification's reserved-keyword list. -/
theorem fd_throw_guard (g : List Char) (l : Lexer) (hg : g.length = 16)
    (hthrow : caseEqv (fdIdentOf l) kwThrow = true) :
    (is_function_declaration g l).1 = false :=
  fd_reject_of_keyword g l kwThrow hg (by decide) hthrow (by decide)

/-- Witness for C10 at the concrete input `throw(x){}` (with `Throw` case
variation as well). -/
theorem fd_throw_guard_witness :
    (is_function_declaration (List.replicate 16 nul) (initLex "throw(x)\x7b\x7d")).1
      = false ∧
    (is_function_declaration (List.replicate 16 nul) (initLex "Throw(x)\x7b\x7d")).1
      = false := by
  constructor
  · exact fd_throw_guard (List.replicate 16 nul) (initLex "throw(x)\x7b\x7d")
      (by decide) (by decide)
  · exact fd_throw_guard (List.replicate 16 nul) (initLex "Throw(x)\x7b\x7d")
      (by decide) (by decide)

/-! ### The parenthesis scan of the function-declaration recognizer -/

theorem matchParensAux_spec :
    ∀ (rem : List Char) (depth : Nat) (l : Lexer), l.rem = rem →
      (matchParensAux rem depth l).1 = (parenScan rem depth).1 ∧
      (matchParensAux rem depth l).2.rem = (parenScan rem depth).2 := by
  intro rem
  induction rem with
  | nil =>
    intro depth l h
    rw [matchParensAux, parenScan]
    exact ⟨rfl, h⟩
  | cons c cs ih =>
    intro depth l h
    by_cases hstop : depth = 0 ∨ c = nul
    · rw [matchParensAux, if_pos hstop, parenScan, if_pos hstop]
      exact ⟨rfl, h⟩
    · rw [matchParensAux, if_neg hstop, parenScan, if_neg hstop]
      refine ih _ _ ?_
      obtain ⟨r, p, m, sg⟩ := l
      cases h
      rfl

theorem parenScan_balancedSkip :
    ∀ (cs : List Char) (d : Nat),
      balancedSkip d cs =
        (if (parenScan cs d).1 = 0 then some (parenScan cs d).2 else none) := by
  intro cs
  induction cs with
  | nil =>
    intro d
    cases d with
    | zero => rfl
    | succ d => rw [parenScan, balancedSkip]; simp
  | cons c t ih =>
    intro d
    cases d with
    | zero => rw [parenScan, if_pos (Or.inl rfl), balancedSkip]; simp
    | succ d =>
      by_cases hc : c = nul
      · rw [parenScan, if_pos (Or.inr hc), balancedSkip, if_pos hc]
        simp
      · have hD : (if c = '(' then d + 2 else if c = ')' then d else d + 1) =
            (if c = '(' then d + 1 + 1 else if c = ')' then d + 1 - 1 else d + 1) := by
          by_cases h1 : c = '('
          · simp [h1]
          · by_cases h2 : c = ')'
            · simp [h1, h2]
            · simp [h1, h2]
        have hps : parenScan (c :: t) (d + 1) =
            parenScan t (if c = '(' then d + 1 + 1 else if c = ')' then d + 1 - 1 else d + 1) := by
          rw [parenScan, if_neg (by simp [hc])]
        rw [hps, balancedSkip, if_neg hc, ih, hD]

/-- The cursor after one `advance` holds the tail of the remaining input
(also at end of input, where `advance` is a no-op on the empty list). -/
theorem advance_rem (l : Lexer) (sk : Bool) : (l.advance sk).rem = l.rem.tail := by
  obtain ⟨r, p, m, sg⟩ := l
  cases r with
  | nil => rfl
  | cons c cs => rfl

theorem take_two_eq_arrow :
    ∀ (d : List Char), d.take 2 = ['=', '>'] ↔ (cHead d = '=' ∧ cHead d.tail = '>')
  | [] => by
    constructor
    · intro h; exact absurd h (by decide)
    · rintro ⟨h1, -⟩; exact absurd h1 (by decide)
  | a :: [] => by
    constructor
    · intro h; exact absurd h (by simp)
    · rintro ⟨-, h2⟩
      simp only [List.tail_cons] at h2
      exact absurd h2 (by decide)
  | a :: b :: u => by simp [cHead, List.take]

theorem fd_tail_iff (l : Lexer) : (fd_tail l).1 = true ↔ fdTailSpec l.rem := by
  unfold fd_tail fdTailSpec
  by_cases hpar : l.lookahead = '('
  case neg =>
    rw [if_pos (by simpa using hpar)]
    simp only [Bool.false_eq_true, false_iff]
    rintro ⟨hp, -⟩
    exact hpar hp
  case pos =>
    rw [if_neg (by simp [hpar])]
    dsimp only
    rw [advance_rem]
    have hmp := matchParensAux_spec l.rem.tail 1 (l.advance false) (advance_rem l false)
    rw [parenScan_balancedSkip]
    have hch : cHead l.rem = '(' := hpar
    by_cases hdep : (parenScan l.rem.tail 1).1 = 0
    case pos =>
      rw [if_neg (by rw [hmp.1]; simpa using hdep), if_pos hdep]
      rw [skip_whitespace_spec]
      dsimp only [Lexer.lookahead]
      rw [hmp.2]
      rw [advance_rem]
      dsimp only
      set D := (parenScan l.rem.tail 1).2.dropWhile is_whitespace with hD
      by_cases hbrace : cHead D = Char.ofNat 123
      · simp [hbrace, hch]
      · by_cases harr : cHead D = '='
        · have hne : ¬cHead D = Char.ofNat 123 := by
            rw [harr]; decide
          simp [hbrace, harr, hch, take_two_eq_arrow, hne]
        · simp [hbrace, harr, hch, take_two_eq_arrow]
    case neg =>
      rw [if_pos (by rw [hmp.1]; simpa using hdep), if_neg hdep]
      simp

/-- C4: once the identifier phase (with the optional `static` prefix) has
accepted, the function-declaration recognizer succeeds iff the next
character is `(`, the parenthesis group is balanced (depth scan reaching
zero before input or a NUL ends it), and after skipping whitespace and
newlines the next input is `{` or the two-character sequence `=>`. -/
theorem fd_paren_body_spec (g : List Char) (l l' : Lexer)
    (hacc : fd_ident_phase g l = (true, l')) :
    ((is_function_declaration g l).1 = true ↔ fdTailSpec l'.rem) := by
  unfold is_function_declaration
  rw [hacc]
  exact fd_tail_iff l'

/-- Witness for C4 at the concrete inputs `f(a,b){}` and `f(a,b)\n=>a+b`
(accepted) and `f(a,(b){}` (declined: unbalanced parentheses). -/
theorem fd_paren_body_spec_witness :
    fd_ident_phase (List.replicate 16 nul) (initLex "f(a,b)\x7b\x7d") =
      (true, ⟨"(a,b)\x7b\x7d".toList, 1, 0, ['f']⟩) ∧
    ((is_function_declaration (List.replicate 16 nul) (initLex "f(a,b)\x7b\x7d")).1
        = true ↔ fdTailSpec "(a,b)\x7b\x7d".toList) ∧
    (is_function_declaration (List.replicate 16 nul) (initLex "f(a,b)\x7b\x7d")).1
      = true ∧
    (is_function_declaration (List.replicate 16 nul) (initLex "f(a,b)\n=>a+b")).1
      = true ∧
    (is_function_declaration (List.replicate 16 nul) (initLex "f(a,(b)\x7b\x7d")).1
      = false := by
  refine ⟨by decide, ?_, by decide, by decide, by decide⟩
  exact fd_paren_body_spec (List.replicate 16 nul) (initLex "f(a,b)\x7b\x7d")
    ⟨"(a,b)\x7b\x7d".toList, 1, 0, ['f']⟩ (by decide)

/-! ### Dispatcher versus the priority table -/

theorem scanStepFD_eq (fuel : Nat) (g4 g16 : List Char)
    (valid : TokenType → Bool) (l : Lexer) :
    scanStepFD g16 valid l =
      runTable fuel g4 g16 [TokenType.functionDefMarker] valid l := by
  unfold scanStepFD runTable recognizerAt
  by_cases h : valid TokenType.functionDefMarker
  · simp only [h, if_true]
    rcases hr : is_function_declaration g16 l.markEnd with ⟨b, l'⟩
    cases b <;> simp [runTable]
  · simp [h, runTable]

theorem scanStepContNL_eq (fuel : Nat) (g4 g16 : List Char)
    (valid : TokenType → Bool) (l : Lexer) :
    scanStepContNL fuel g16 valid l =
      runTable fuel g4 g16
        [TokenType.continuationNewline, TokenType.functionDefMarker] valid l := by
  unfold scanStepContNL
  rw [runTable]
  dsimp only [recognizerAt]
  by_cases h : valid TokenType.continuationNewline
  · simp only [h, if_true]
    rcases hr : scan_continuation_newline fuel l.markEnd with - | ⟨b, l'⟩
    · rfl
    · cases b
      · exact scanStepFD_eq fuel g4 g16 valid l'
      · rfl
  · simp only [h, if_false, Bool.false_eq_true]
    exact scanStepFD_eq fuel g4 g16 valid l

theorem scanStepContStart_eq (fuel : Nat) (g4 g16 : List Char)
    (valid : TokenType → Bool) (l : Lexer) :
    scanStepContStart fuel g16 valid l =
      runTable fuel g4 g16
        [TokenType.continuationSectionStart, TokenType.continuationNewline,
         TokenType.functionDefMarker] valid l := by
  unfold scanStepContStart
  rw [runTable]
  dsimp only [recognizerAt]
  by_cases h : valid TokenType.continuationSectionStart
  · simp only [h, if_true]
    rcases hr : is_continuation_start fuel l.markEnd with - | ⟨b, l'⟩
    · rfl
    · cases b
      · exact scanStepContNL_eq fuel g4 g16 valid l'
      · rfl
  · simp only [h, if_false, Bool.false_eq_true]
    exact scanStepContNL_eq fuel g4 g16 valid l

theorem scanStepImplicit_eq (fuel : Nat) (g4 g16 : List Char)
    (valid : TokenType → Bool) (l : Lexer) :
    scanStepImplicit fuel g4 g16 valid l =
      runTable fuel g4 g16
        [TokenType.implicitConcatMarker, TokenType.continuationSectionStart,
         TokenType.continuationNewline, TokenType.functionDefMarker] valid l := by
  unfold scanStepImplicit
  rw [runTable]
  dsimp only [recognizerAt]
  by_cases h : valid TokenType.implicitConcatMarker
  · simp only [h, if_true]
    rcases hr : is_implicit_concatenation g4 l.markEnd with ⟨b, l'⟩
    cases b
    · simp only
      exact scanStepContStart_eq fuel g4 g16 valid l'
    · rfl
  · simp only [h, if_false, Bool.false_eq_true]
    exact scanStepContStart_eq fuel g4 g16 valid l

theorem scanStepEmpty_eq (fuel : Nat) (g4 g16 : List Char)
    (valid : TokenType → Bool) (l : Lexer) :
    scanStepEmpty fuel g4 g16 valid l =
      runTable fuel g4 g16
        [TokenType.emptyArg, TokenType.implicitConcatMarker,
         TokenType.continuationSectionStart, TokenType.continuationNewline,
         TokenType.functionDefMarker] valid l := by
  unfold scanStepEmpty
  rw [runTable]
  dsimp only [recognizerAt]
  by_cases h : valid TokenType.emptyArg
  · simp only [h, if_true]
    rcases hr : is_empty_arg l.markEnd with ⟨b, l'⟩
    cases b
    · simp only
      exact scanStepImplicit_eq fuel g4 g16 valid l'
    · rfl
  · simp only [h, if_false, Bool.false_eq_true]
    exact scanStepImplicit_eq fuel g4 g16 valid l

/-- C8: the dispatcher is exactly the priority-ordered table dispatch: it
tries the recognizers in the fixed order optional-marker, empty-argument,
implicit-concatenation, continuation-section-start, continuation-newline,
function-declaration, runs a recognizer only when its token kind is in the
valid-symbol set, returns success with the kind of the first recognizer
that matches, and reports failure when no valid kind matches. -/
theorem scan_eq_runTable (fuel : Nat) (g4 g16 : List Char)
    (valid : TokenType → Bool) (l : Lexer) :
    scan fuel g4 g16 valid l =
      runTable fuel g4 g16 dispatchOrder valid l := by
  unfold scan dispatchOrder
  rw [runTable]
  dsimp only [recognizerAt]
  by_cases h : valid TokenType.optionalMarker
  · simp only [h, if_true]
    rcases hr : is_optional_marker l with ⟨b, l'⟩
    cases b
    · simp only
      exact scanStepEmpty_eq fuel g4 g16 valid l'
    · rfl
  · simp only [h, if_false, Bool.false_eq_true]
    exact scanStepEmpty_eq fuel g4 g16 valid l

/-! ### Continuation-section option lines -/

theorem eol_of_nil {l : Lexer} (h : l.rem = []) : is_eol l.lookahead = true := by
  rw [Lexer.lookahead, h]
  decide

theorem eof_false_of_ne_nil {l : Lexer} (h : l.rem ≠ []) : l.eof = false := by
  rw [Lexer.eof]
  simpa [List.isEmpty_iff] using h

theorem length_dropWhile_le (p : Char → Bool) :
    ∀ (cs : List Char), (cs.dropWhile p).length ≤ cs.length := by
  intro cs
  induction cs with
  | nil => simp
  | cons c t ih =>
    rw [List.dropWhile_cons]
    by_cases hp : p c
    · simp only [hp, if_true]
      exact Nat.le_succ_of_le ih
    · simp [hp]

theorem length_dropWhile_lt {p : Char → Bool} {cs : List Char}
    (hne : cs ≠ []) (hp : p (cHead cs) = true) :
    (cs.dropWhile p).length < cs.length := by
  cases cs with
  | nil => exact absurd rfl hne
  | cons c t =>
    rw [List.dropWhile_cons, if_pos (by simpa [cHead] using hp)]
    have := length_dropWhile_le p t
    simpa using Nat.lt_succ_of_le this

theorem contOptLoop_spec :
    ∀ (n : Nat) (l : Lexer), l.rem.length < n →
      ∃ b l', contOptLoop n l = some (b, l') ∧
        (b = true ↔ OptsAccepted l.rem) := by
  intro n
  induction n with
  | zero => intro l h; omega
  | succ n ih =>
    intro l h
    by_cases heol : is_eol l.lookahead = true
    · refine ⟨true, l, ?_, ?_⟩
      · rw [contOptLoop, if_neg (by rw [heol]; simp)]
      · exact ⟨fun _ => OptsAccepted.terminator _ heol, fun _ => rfl⟩
    · have heol' : is_eol l.lookahead = false := by simpa using heol
      have hne : l.rem ≠ [] := fun hn => heol (eol_of_nil hn)
      have heof : l.eof = false := eof_false_of_ne_nil hne
      have hlen : l.rem.length ≤ n := by omega
      by_cases hj : (l.lookahead = 'j' || l.lookahead = 'J') = true
      · -- join option
        have hjj : cHead l.rem = 'j' ∨ cHead l.rem = 'J' := by
          simpa [Lexer.lookahead] using hj
        have hidc : is_identifier_char (cHead l.rem) = true := by
          rcases hjj with hX | hX <;> rw [hX] <;> decide
        have hidchars : ∀ c ∈ l.rem.takeWhile is_identifier_char,
            is_identifier_char c = true := fun c hc => List.mem_takeWhile_imp hc
        have hbr2 : strcaseeq (skip_identifier (List.replicate 10 nul) 5 l).2.1 kwJoin
            = caseEqv ((l.rem.takeWhile is_identifier_char).take 4) kwJoin := by
          rw [skip_identifier_spec]
          exact strcaseeq_capture_zeroed 5 10 _ kwJoin (by omega) (by omega)
            hidchars (by decide)
        by_cases hjoin :
            caseEqv ((l.rem.takeWhile is_identifier_char).take 4) kwJoin = true
        · -- join matches: recurse
          set L3 := (skip_horizontal_ws (skip_to_whitespace
            (skip_identifier (List.replicate 10 nul) 5 l).2.2)).2 with hL3
          have hL3rem : L3.rem = ((l.rem.dropWhile is_identifier_char).dropWhile
              (fun c => !is_whitespace c)).dropWhile isHws := by
            rw [hL3, skip_identifier_spec]
            dsimp only
            rw [skip_to_whitespace_spec]
            dsimp only
            rw [skip_horizontal_ws_spec]
          have hlen3 : L3.rem.length < n := by
            rw [hL3rem]
            have h1 := length_dropWhile_lt hne hidc
            have h2 := length_dropWhile_le (fun c => !is_whitespace c)
              (l.rem.dropWhile is_identifier_char)
            have h3 := length_dropWhile_le isHws
              ((l.rem.dropWhile is_identifier_char).dropWhile (fun c => !is_whitespace c))
            omega
          obtain ⟨b, l', heq, hiff⟩ := ih L3 hlen3
          refine ⟨b, l', ?_, ?_⟩
          · rw [contOptLoop, if_pos (by rw [heol']; rfl), if_neg (by rw [heof]; simp),
              if_pos hj]
            dsimp only
            rw [hbr2, if_neg (by rw [hjoin]; simp)]
            exact heq
          · rw [hiff, hL3rem]
            constructor
            · exact fun hOA => OptsAccepted.joinOpt _ hjj hjoin hOA
            · intro hOA
              cases hOA with
              | terminator _ ht => exact absurd ht heol
              | joinOpt _ hh hc hnext => exact hnext
              | commentOpt _ hh hc hnext =>
                rcases hjj with h1 | h1 <;> rcases hh with h2 | h2 <;>
                  rw [h1] at h2 <;> exact absurd h2 (by decide)
              | trimOpt _ hh hc hnext =>
                rcases hjj with h1 | h1 <;>
                  rcases hh with h2 | h2 | h2 | h2 <;>
                  rw [h1] at h2 <;> exact absurd h2 (by decide)
              | backtickOpt _ hh hnext =>
                rcases hjj with h1 | h1 <;> rw [h1] at hh <;>
                  exact absurd hh (by decide)
        · -- join spelled wrong: reject
          have hjoin' : caseEqv ((l.rem.takeWhile is_identifier_char).take 4) kwJoin
              = false := by simpa using hjoin
          refine ⟨false, (skip_identifier (List.replicate 10 nul) 5 l).2.2, ?_, ?_⟩
          · rw [contOptLoop, if_pos (by rw [heol']; rfl), if_neg (by rw [heof]; simp),
              if_pos hj]
            dsimp only
            rw [hbr2, if_pos (by rw [hjoin']; rfl)]
          · refine iff_of_false (by simp) ?_
            intro hOA
            cases hOA with
            | terminator _ ht => exact absurd ht heol
            | joinOpt _ hh hc hnext => exact absurd hc hjoin
            | commentOpt _ hh hc hnext =>
              rcases hjj with h1 | h1 <;> rcases hh with h2 | h2 <;>
                rw [h1] at h2 <;> exact absurd h2 (by decide)
            | trimOpt _ hh hc hnext =>
              rcases hjj with h1 | h1 <;>
                rcases hh with h2 | h2 | h2 | h2 <;>
                rw [h1] at h2 <;> exact absurd h2 (by decide)
            | backtickOpt _ hh hnext =>
              rcases hjj with h1 | h1 <;> rw [h1] at hh <;>
                exact absurd hh (by decide)
      · by_cases hcopt : (l.lookahead = 'c' || l.lookahead = 'C') = true
        · -- comment option
          have hcc : cHead l.rem = 'c' ∨ cHead l.rem = 'C' := by
            simpa [Lexer.lookahead] using hcopt
          have hidc : is_identifier_char (cHead l.rem) = true := by
            rcases hcc with hX | hX <;> rw [hX] <;> decide
          have hidchars : ∀ c ∈ l.rem.takeWhile is_identifier_char,
              is_identifier_char c = true := fun c hc => List.mem_takeWhile_imp hc
          have hbrK : ∀ kw : List Char, kw.length ≤ 8 → (∀ c ∈ kw, c ≠ nul) →
              strcaseeq (skip_identifier (List.replicate 10 nul) 10 l).2.1 kw
                = caseEqv (l.rem.takeWhile is_identifier_char) kw := by
            intro kw hkl hkn
            rw [skip_identifier_spec]
            dsimp only
            rw [strcaseeq_capture_zeroed 10 10 _ kw (by omega) (by omega) hidchars hkn]
            exact caseEqv_take (by omega)
          set cnd := (caseEqv (l.rem.takeWhile is_identifier_char) "comments".toList ||
            caseEqv (l.rem.takeWhile is_identifier_char) "comment".toList ||
            caseEqv (l.rem.takeWhile is_identifier_char) "com".toList ||
            caseEqv (l.rem.takeWhile is_identifier_char) "c".toList) with hcnd
          have hbrC : (strcaseeq (skip_identifier (List.replicate 10 nul) 10 l).2.1
                "comments".toList ||
              strcaseeq (skip_identifier (List.replicate 10 nul) 10 l).2.1
                "comment".toList ||
              strcaseeq (skip_identifier (List.replicate 10 nul) 10 l).2.1
                "com".toList ||
              strcaseeq (skip_identifier (List.replicate 10 nul) 10 l).2.1
                "c".toList) = cnd := by
            rw [hbrK _ (by decide) (by decide), hbrK _ (by decide) (by decide),
              hbrK _ (by decide) (by decide), hbrK _ (by decide) (by decide)]
          by_cases hmatch : cnd = true
          · set L3 := (skip_horizontal_ws
              (skip_identifier (List.replicate 10 nul) 10 l).2.2).2 with hL3
            have hL3rem : L3.rem =
                (l.rem.dropWhile is_identifier_char).dropWhile isHws := by
              rw [hL3, skip_identifier_spec]
              dsimp only
              rw [skip_horizontal_ws_spec]
            have hlen3 : L3.rem.length < n := by
              rw [hL3rem]
              have h1 := length_dropWhile_lt hne hidc
              have h3 := length_dropWhile_le isHws (l.rem.dropWhile is_identifier_char)
              omega
            obtain ⟨b, l', heq, hiff⟩ := ih L3 hlen3
            refine ⟨b, l', ?_, ?_⟩
            · rw [contOptLoop, if_pos (by rw [heol']; rfl), if_neg (by rw [heof]; simp),
                if_neg hj, if_pos hcopt]
              dsimp only
              rw [hbrC, if_neg (by rw [hmatch]; simp)]
              exact heq
            · rw [hiff, hL3rem]
              constructor
              · exact fun hOA => OptsAccepted.commentOpt _ hcc (hcnd ▸ hmatch) hOA
              · intro hOA
                cases hOA with
                | terminator _ ht => exact absurd ht heol
                | joinOpt _ hh hc hnext =>
                  rcases hcc with h1 | h1 <;> rcases hh with h2 | h2 <;>
                    rw [h1] at h2 <;> exact absurd h2 (by decide)
                | commentOpt _ hh hc hnext => exact hnext
                | trimOpt _ hh hc hnext =>
                  rcases hcc with h1 | h1 <;>
                    rcases hh with h2 | h2 | h2 | h2 <;>
                    rw [h1] at h2 <;> exact absurd h2 (by decide)
                | backtickOpt _ hh hnext =>
                  rcases hcc with h1 | h1 <;> rw [h1] at hh <;>
                    exact absurd hh (by decide)
          · have hmatch' : cnd = false := by simpa using hmatch
            refine ⟨false, (skip_identifier (List.replicate 10 nul) 10 l).2.2, ?_, ?_⟩
            · rw [contOptLoop, if_pos (by rw [heol']; rfl), if_neg (by rw [heof]; simp),
                if_neg hj, if_pos hcopt]
              dsimp only
              rw [hbrC, if_pos (by rw [hmatch']; rfl)]
            · refine iff_of_false (by simp) ?_
              intro hOA
              cases hOA with
              | terminator _ ht => exact absurd ht heol
              | joinOpt _ hh hc hnext =>
                rcases hcc with h1 | h1 <;> rcases hh with h2 | h2 <;>
                  rw [h1] at h2 <;> exact absurd h2 (by decide)
              | commentOpt _ hh hc hnext => exact absurd hc (hcnd ▸ hmatch)
              | trimOpt _ hh hc hnext =>
                rcases hcc with h1 | h1 <;>
                  rcases hh with h2 | h2 | h2 | h2 <;>
                  rw [h1] at h2 <;> exact absurd h2 (by decide)
              | backtickOpt _ hh hnext =>
                rcases hcc with h1 | h1 <;> rw [h1] at hh <;>
                  exact absurd hh (by decide)
        · by_cases htr : (l.lookahead = 'l' || l.lookahead = 'L' ||
              l.lookahead = 'r' || l.lookahead = 'R') = true
          · -- trim option
            have hll : cHead l.rem = 'l' ∨ cHead l.rem = 'L' ∨
                cHead l.rem = 'r' ∨ cHead l.rem = 'R' := by
              simpa [Lexer.lookahead, or_assoc] using htr
            have hidc : is_identifier_char (cHead l.rem) = true := by
              rcases hll with hX | hX | hX | hX <;> rw [hX] <;> decide
            have hidchars : ∀ c ∈ l.rem.takeWhile is_identifier_char,
                is_identifier_char c = true := fun c hc => List.mem_takeWhile_imp hc
            have hbrK : ∀ kw : List Char, kw.length ≤ 8 → (∀ c ∈ kw, c ≠ nul) →
                strcaseeq (skip_identifier (List.replicate 10 nul) 10 l).2.1 kw
                  = caseEqv (l.rem.takeWhile is_identifier_char) kw := by
              intro kw hkl hkn
              rw [skip_identifier_spec]
              dsimp only
              rw [strcaseeq_capture_zeroed 10 10 _ kw (by omega) (by omega) hidchars hkn]
              exact caseEqv_take (by omega)
            set cnd := (caseEqv (l.rem.takeWhile is_identifier_char) "ltrim".toList ||
              caseEqv (l.rem.takeWhile is_identifier_char) "ltrim0".toList ||
              caseEqv (l.rem.takeWhile is_identifier_char) "rtrim0".toList) with hcnd
            have hbrC : (strcaseeq (skip_identifier (List.replicate 10 nul) 10 l).2.1
                  "ltrim".toList ||
                strcaseeq (skip_identifier (List.replicate 10 nul) 10 l).2.1
                  "ltrim0".toList ||
                strcaseeq (skip_identifier (List.replicate 10 nul) 10 l).2.1
                  "rtrim0".toList) = cnd := by
              rw [hbrK _ (by decide) (by decide), hbrK _ (by decide) (by decide),
                hbrK _ (by decide) (by decide)]
            by_cases hmatch : cnd = true
            · set L3 := (skip_horizontal_ws
                (skip_identifier (List.replicate 10 nul) 10 l).2.2).2 with hL3
              have hL3rem : L3.rem =
                  (l.rem.dropWhile is_identifier_char).dropWhile isHws := by
                rw [hL3, skip_identifier_spec]
                dsimp only
                rw [skip_horizontal_ws_spec]
              have hlen3 : L3.rem.length < n := by
                rw [hL3rem]
                have h1 := length_dropWhile_lt hne hidc
                have h3 := length_dropWhile_le isHws (l.rem.dropWhile is_identifier_char)
                omega
              obtain ⟨b, l', heq, hiff⟩ := ih L3 hlen3
              refine ⟨b, l', ?_, ?_⟩
              · rw [contOptLoop, if_pos (by rw [heol']; rfl), if_neg (by rw [heof]; simp),
                  if_neg hj, if_neg hcopt, if_pos htr]
                dsimp only
                rw [hbrC, if_neg (by rw [hmatch]; simp)]
                exact heq
              · rw [hiff, hL3rem]
                constructor
                · exact fun hOA => OptsAccepted.trimOpt _ hll (hcnd ▸ hmatch) hOA
                · intro hOA
                  cases hOA with
                  | terminator _ ht => exact absurd ht heol
                  | joinOpt _ hh hc hnext =>
                    rcases hll with h1 | h1 | h1 | h1 <;> rcases hh with h2 | h2 <;>
                      rw [h1] at h2 <;> exact absurd h2 (by decide)
                  | commentOpt _ hh hc hnext =>
                    rcases hll with h1 | h1 | h1 | h1 <;> rcases hh with h2 | h2 <;>
                      rw [h1] at h2 <;> exact absurd h2 (by decide)
                  | trimOpt _ hh hc hnext => exact hnext
                  | backtickOpt _ hh hnext =>
                    rcases hll with h1 | h1 | h1 | h1 <;> rw [h1] at hh <;>
                      exact absurd hh (by decide)
            · have hmatch' : cnd = false := by simpa using hmatch
              refine ⟨false, (skip_identifier (List.replicate 10 nul) 10 l).2.2, ?_, ?_⟩
              · rw [contOptLoop, if_pos (by rw [heol']; rfl), if_neg (by rw [heof]; simp),
                  if_neg hj, if_neg hcopt, if_pos htr]
                dsimp only
                rw [hbrC, if_pos (by rw [hmatch']; rfl)]
              · refine iff_of_false (by simp) ?_
                intro hOA
                cases hOA with
                | terminator _ ht => exact absurd ht heol
                | joinOpt _ hh hc hnext =>
                  rcases hll with h1 | h1 | h1 | h1 <;> rcases hh with h2 | h2 <;>
                    rw [h1] at h2 <;> exact absurd h2 (by decide)
                | commentOpt _ hh hc hnext =>
                  rcases hll with h1 | h1 | h1 | h1 <;> rcases hh with h2 | h2 <;>
                    rw [h1] at h2 <;> exact absurd h2 (by decide)
                | trimOpt _ hh hc hnext => exact absurd hc (hcnd ▸ hmatch)
                | backtickOpt _ hh hnext =>
                  rcases hll with h1 | h1 | h1 | h1 <;> rw [h1] at hh <;>
                    exact absurd hh (by decide)
          · by_cases hbt : l.lookahead = btick
            · -- literal backtick option
              have hbtc : cHead l.rem = btick := hbt
              set L3 := (skip_horizontal_ws (l.advance false)).2 with hL3
              have hL3rem : L3.rem = l.rem.tail.dropWhile isHws := by
                rw [hL3, skip_horizontal_ws_spec]
                dsimp only
                rw [advance_rem]
              have hlen3 : L3.rem.length < n := by
                rw [hL3rem]
                have h3 := length_dropWhile_le isHws l.rem.tail
                have h4 : l.rem.tail.length < l.rem.length := by
                  cases hx : l.rem with
                  | nil => exact absurd hx hne
                  | cons a t => simp
                omega
              obtain ⟨b, l', heq, hiff⟩ := ih L3 hlen3
              refine ⟨b, l', ?_, ?_⟩
              · rw [contOptLoop, if_pos (by rw [heol']; rfl), if_neg (by rw [heof]; simp),
                  if_neg hj, if_neg hcopt, if_neg htr, if_pos hbt]
                exact heq
              · rw [hiff, hL3rem]
                constructor
                · exact fun hOA => OptsAccepted.backtickOpt _ hbtc hOA
                · intro hOA
                  cases hOA with
                  | terminator _ ht => exact absurd ht heol
                  | joinOpt _ hh hc hnext =>
                    rcases hh with h2 | h2 <;> rw [hbtc] at h2 <;>
                      exact absurd h2 (by decide)
                  | commentOpt _ hh hc hnext =>
                    rcases hh with h2 | h2 <;> rw [hbtc] at h2 <;>
                      exact absurd h2 (by decide)
                  | trimOpt _ hh hc hnext =>
                    rcases hh with h2 | h2 | h2 | h2 <;> rw [hbtc] at h2 <;>
                      exact absurd h2 (by decide)
                  | backtickOpt _ hh hnext => exact hnext
            · -- unrecognized option character
              refine ⟨false, l, ?_, ?_⟩
              · rw [contOptLoop, if_pos (by rw [heol']; rfl), if_neg (by rw [heof]; simp),
                  if_neg hj, if_neg hcopt, if_neg htr, if_neg hbt]
              · refine iff_of_false (by simp) ?_
                intro hOA
                cases hOA with
                | terminator _ ht => exact absurd ht heol
                | joinOpt _ hh hc hnext =>
                  exact hj (by simpa [Lexer.lookahead] using hh)
                | commentOpt _ hh hc hnext =>
                  exact hcopt (by simpa [Lexer.lookahead] using hh)
                | trimOpt _ hh hc hnext =>
                  exact htr (by simpa [Lexer.lookahead, or_assoc] using hh)
                | backtickOpt _ hh hnext =>
                  exact hbt (by simpa [Lexer.lookahead] using hh)

/-- C6 (amended): with enough fuel (remaining-input length suffices — the
loop consumes at least one character per iteration), the
continuation-section-start recognizer reaches a verdict, and the verdict is
true exactly when `ContStartOk` holds — the claim's algorithm with one
correction: reaching end of input during the option scan yields true, not
false, because the NUL lookahead satisfies the code's line-terminator test
before the loop's (unreachable) end-of-input check runs. -/
theorem markEnd_rem (l : Lexer) : l.markEnd.rem = l.rem := rfl

/-- C6 (amended): with enough fuel (remaining-input length suffices — the
loop consumes at least one character per iteration), the
continuation-section-start recognizer reaches a verdict, and the verdict is
true exactly when `ContStartOk` holds — the claim's algorithm with one
correction: reaching end of input during the option scan yields true, not
false, because the NUL lookahead satisfies the code's line-terminator test
before the loop's (unreachable) end-of-input check runs. -/
theorem cont_start_spec (l : Lexer) (fuel : Nat) (hf : l.rem.length < fuel) :
    ∃ b l', is_continuation_start fuel l = some (b, l') ∧
      (b = true ↔ ContStartOk l.rem) := by
  set L1 := (skip_horizontal_ws l).2 with hL1
  have hL1rem : L1.rem = l.rem.dropWhile isHws := by
    rw [hL1, skip_horizontal_ws_spec]
  set L2 := skip_whitespace L1 with hL2
  have hL2rem : L2.rem = (l.rem.dropWhile isHws).dropWhile is_whitespace := by
    rw [hL2, skip_whitespace_spec]
    dsimp only
    rw [hL1rem]
  set L3 := (skip_horizontal_ws ((L2.advance false).markEnd)).2 with hL3
  have hL3rem : L3.rem =
      (((l.rem.dropWhile isHws).dropWhile is_whitespace).tail).dropWhile isHws := by
    rw [hL3, skip_horizontal_ws_spec]
    dsimp only
    rw [markEnd_rem, advance_rem, hL2rem]
  have hunf : is_continuation_start fuel l =
      (if L1.eof then some (false, L1)
       else if !is_eol L1.lookahead then some (false, L1)
       else if L2.lookahead ≠ '(' then some (false, L2)
       else contOptLoop fuel L3) := rfl
  have hlk1 : L1.lookahead = cHead (l.rem.dropWhile isHws) := by
    rw [Lexer.lookahead, hL1rem]
  have hlk2 : L2.lookahead =
      cHead ((l.rem.dropWhile isHws).dropWhile is_whitespace) := by
    rw [Lexer.lookahead, hL2rem]
  unfold ContStartOk
  by_cases hnil : l.rem.dropWhile isHws = []
  · have heof1 : L1.eof = true := by
      rw [Lexer.eof, hL1rem, hnil]
      rfl
    refine ⟨false, L1, by rw [hunf, if_pos heof1], ?_⟩
    refine iff_of_false (by simp) ?_
    rintro ⟨hne, -, -, -⟩
    exact hne hnil
  · have heof1 : L1.eof = false := by
      rw [Lexer.eof, hL1rem]
      simpa [List.isEmpty_iff] using hnil
    by_cases heol : is_eol (cHead (l.rem.dropWhile isHws)) = true
    · by_cases hpar : cHead ((l.rem.dropWhile isHws).dropWhile is_whitespace) = '('
      · have hle1 := length_dropWhile_le isHws l.rem
        have hle2 := length_dropWhile_le is_whitespace (l.rem.dropWhile isHws)
        have hle3 := length_dropWhile_le isHws
          (((l.rem.dropWhile isHws).dropWhile is_whitespace).tail)
        have hle4 : (((l.rem.dropWhile isHws).dropWhile is_whitespace).tail).length ≤
            ((l.rem.dropWhile isHws).dropWhile is_whitespace).length := by
          cases (l.rem.dropWhile isHws).dropWhile is_whitespace <;> simp
        obtain ⟨b, l', heq, hiff⟩ := contOptLoop_spec fuel L3
          (by rw [hL3rem]; omega)
        refine ⟨b, l', ?_, ?_⟩
        · rw [hunf, if_neg (by simp [heof1]),
            if_neg (by rw [hlk1, heol]; simp),
            if_neg (by rw [hlk2]; simpa using hpar)]
          exact heq
        · rw [hiff, hL3rem]
          constructor
          · exact fun hOA => ⟨hnil, heol, hpar, hOA⟩
          · rintro ⟨-, -, -, hOA⟩
            exact hOA
      · refine ⟨false, L2, ?_, ?_⟩
        · rw [hunf, if_neg (by simp [heof1]),
            if_neg (by rw [hlk1, heol]; simp),
            if_pos (by rw [hlk2]; simpa using hpar)]
        · refine iff_of_false (by simp) ?_
          rintro ⟨-, -, hp, -⟩
          exact hpar hp
    · refine ⟨false, L1, ?_, ?_⟩
      · rw [hunf, if_neg (by simp [heof1]),
          if_pos (by rw [hlk1]; simpa using heol)]
      · refine iff_of_false (by simp) ?_
        rintro ⟨-, he, -, -⟩
        exact heol he

/-- Counterexample to C6 as stated: on the input `\n(ltrim` the option scan
runs past the accepted `ltrim` token straight to end of input — no line
terminator character is ever reached — yet the recognizer succeeds (the
claim demands that reaching end of input inside the option scan yield
false).  The second conjunct shows the scan indeed consumed the whole
input. -/
theorem cont_start_eof_counterexample :
    (is_continuation_start 8 (initLex "\n(ltrim")).map Prod.fst = some true ∧
    (is_continuation_start 8 (initLex "\n(ltrim")).map (fun p => p.2.rem)
      = some [] :=
  ⟨by decide, by decide⟩

/-- Witness for the amended C6 at the concrete input `\n(ltrim\nx`. -/
theorem cont_start_spec_witness :
    ∃ b l', is_continuation_start 20 (initLex "\n(ltrim\nx") = some (b, l') ∧
      (b = true ↔ ContStartOk (initLex "\n(ltrim\nx").rem) :=
  cont_start_spec (initLex "\n(ltrim\nx") 20 (by decide)
